import Mathlib

/-!
# A formal model of trendoid (src/trendoid.py)

This file is a shallow embedding of the trendoid ingestion-and-aggregation
engine into Lean, together with theorems checking the natural-language
specification of the repository against the code.

Modelling conventions, fixed once for the whole file:

* Python floats are modelled by `PyFloat`: an exact rational for finite
  values (binary rounding of IEEE arithmetic is idealised away), plus the
  two infinities and NaN, which Python's `float(...)` parser can produce.
* The App Engine datastore is modelled by `Store`: association lists from
  key names to entities, with key-based get/upsert/delete exactly like
  `get_by_key_name` / `put` / `delete`.
* Server-assigned timestamps (`DataPoint.timestamp`, `auto_now_add`) are
  microseconds since the epoch of day ordinal 0, so that day `d` starts at
  `d * 86400000000`.
* A calendar date is a `PyDate`: its day ordinal (as in
  `datetime.date.toordinal`) together with its ISO 8601 rendering (as in
  `datetime.date.isoformat`).  The Gregorian conversion between the two is
  not re-implemented; theorems are stated for an arbitrary such pair.
* Request handlers are modelled as pure functions from the store and the
  request data to a result carrying the HTTP status and the new store.
-/

/-- A Python float value: a finite value (exact rational), an infinity, or
NaN.  Python's builtin `float(s)` can return any of these. -/
inductive PyFloat where
  | finite (q : ℚ)
  | inf
  | neginf
  | nan
deriving DecidableEq

/-- Whether a `PyFloat` is a finite number (not an infinity, not NaN). -/
def PyFloat.isFinite : PyFloat → Bool
  | .finite _ => true
  | _ => false

/-- Python comparison `a < b` on float values: the usual order with
`-inf < finite < inf`; every comparison involving NaN is false. -/
def pyLt : PyFloat → PyFloat → Bool
  | .nan, _ => false
  | _, .nan => false
  | .neginf, .neginf => false
  | .neginf, _ => true
  | _, .neginf => false
  | .inf, _ => false
  | .finite _, .inf => true
  | .finite a, .finite b => decide (a < b)

/-- Python addition on float values (`inf + (-inf)` and anything with NaN
give NaN). -/
def pyAdd : PyFloat → PyFloat → PyFloat
  | .nan, _ => .nan
  | _, .nan => .nan
  | .inf, .neginf => .nan
  | .neginf, .inf => .nan
  | .inf, _ => .inf
  | _, .inf => .inf
  | .neginf, _ => .neginf
  | _, .neginf => .neginf
  | .finite a, .finite b => .finite (a + b)

/-- Python `sum(values)`: left fold of `+` starting from `0`. -/
def pySum (l : List PyFloat) : PyFloat := l.foldl pyAdd (.finite 0)

/-- Python division of a float by an integer (list length); the length is
always positive where this is used (`DataAggregate.put`, non-empty branch). -/
def pyDivNat : PyFloat → Nat → PyFloat
  | .finite q, n => .finite (q / (n : ℚ))
  | .inf, _ => .inf
  | .neginf, _ => .neginf
  | .nan, _ => .nan

/-- Python `min(values)` for a non-empty list: start from the first element
and replace the current result whenever a later element is `<` it.  The
`[]` case is unreachable in the code (Python would raise) and returns a
dummy value. -/
def pymin : List PyFloat → PyFloat
  | [] => .nan
  | x :: xs => xs.foldl (fun m y => if pyLt y m then y else m) x

/-- Python `max(values)` for a non-empty list, dually to `pymin`. -/
def pymax : List PyFloat → PyFloat
  | [] => .nan
  | x :: xs => xs.foldl (fun m y => if pyLt m y then y else m) x

/-- Python `sum(values) / len(values)`. -/
def pyavg (l : List PyFloat) : PyFloat := pyDivNat (pySum l) l.length

/-- The non-strict comparison used to model Python's ascending sort, which
compares with `<` only: `a` may stay before `b` iff not `b < a`. -/
def pyle (a b : PyFloat) : Prop := pyLt b a = false

instance : DecidableRel pyle := fun a b =>
  inferInstanceAs (Decidable (pyLt b a = false))

/-- Python `sorted(values)`: an ascending stable sort driven by `<`.
Exact for NaN-free data (on lists containing NaN, Python's output is
order-dependent garbage; no theorem below depends on that case). -/
def pySortValues (l : List PyFloat) : List PyFloat := l.insertionSort pyle

/-- Python `sorted(values)[len(values) / 2]` (integer division): the
upper-middle element for even lengths.  The default for an out-of-range
index is unreachable for non-empty lists. -/
def pymedian (l : List PyFloat) : PyFloat :=
  (pySortValues l).getD (l.length / 2) .nan

/-- Association-list lookup by string key, first match wins (the datastore
has one entity per key name). -/
def alookup {α : Type} : List (String × α) → String → Option α
  | [], _ => none
  | (k, v) :: rest, q => if k = q then some v else alookup rest q

/-- Keyed upsert: replace the first entry with this key in place, or append
a new entry.  Models both a datastore `put` under a key name and a Python
dict assignment. -/
def dictInsert {α : Type} : List (String × α) → String → α → List (String × α)
  | [], k, v => [(k, v)]
  | (k', v') :: rest, k, v =>
    if k' = k then (k, v) :: rest else (k', v') :: dictInsert rest k v

/-- Lexicographic strict order on character lists by code point, modelling
how the datastore compares string property values in GQL inequalities. -/
def lexLt : List Char → List Char → Bool
  | [], [] => false
  | [], _ :: _ => true
  | _ :: _, [] => false
  | a :: as, b :: bs =>
    if a.toNat < b.toNat then true
    else if a.toNat = b.toNat then lexLt as bs else false

/-- Strict `<` on strings (datastore string comparison). -/
def strLtb (a b : String) : Bool := lexLt a.data b.data

/-- The comparison `a >= b` on strings, as used by the GQL filters (`!(a < b)`). -/
def strGeb (a b : String) : Bool := !strLtb a b

/-- The regex `DATE_RE = re.compile('^\d{4}-\d{2}-\d{2}$')` (trendoid.py line 18):
exactly four digits, a dash, two digits, a dash, two digits.  Note this is
only a shape check, not calendar validity. -/
def dateShape (s : String) : Bool :=
  match s.data with
  | [a, b, c, d, e, f, g, h, i, j] =>
    a.isDigit && b.isDigit && c.isDigit && d.isDigit && e = '-' &&
    f.isDigit && g.isDigit && h = '-' && i.isDigit && j.isDigit
  | _ => false

/-- A calendar date: its day ordinal (`datetime.date.toordinal`) and its
ISO 8601 string (`datetime.date.isoformat`).  Theorems quantify over
arbitrary pairs; the Gregorian link between the two components is not
re-implemented here. -/
structure PyDate where
  ord : Nat
  iso : String
deriving DecidableEq

/-- The `Project` model (trendoid.py lines 20-25): slug, title, API key and
the list of field names ever observed. -/
structure Project where
  slug : String
  title : String
  api_key : String
  field_names : List String
deriving DecidableEq

/-- The `DataPoint` Expando model (lines 40-43): the key name of the owning
project (its `project` reference), the server-assigned timestamp
(microseconds), the remote address, and the dynamic properties, i.e. the
measurement fields, a mapping from field name to float value. -/
structure DataPoint where
  project : String
  timestamp : Nat
  remote_addr : String
  fields : List (String × PyFloat)
deriving DecidableEq

/-- The `DataAggregate` model (lines 46-65).  `min`, `max`, `average` and
`median` are `Option` valued because `FloatProperty` defaults to None on a
freshly constructed entity; `DataAggregate.put` always assigns them. -/
structure DataAggregate where
  field_name : String
  date : String
  values : List PyFloat
  min : Option PyFloat
  max : Option PyFloat
  average : Option PyFloat
  median : Option PyFloat
deriving DecidableEq

/-- A freshly constructed `DataAggregate(key_name=...)`: every property at
its default. -/
def freshAgg : DataAggregate :=
  { field_name := "", date := "", values := [],
    min := none, max := none, average := none, median := none }

/-- Method `DataAggregate.put` (lines 67-78): recompute the statistics from
`values` (all four are zero for an empty value list), then store.  This
function is the statistics part; the datastore write is `storePutAgg`. -/
def DataAggregate.put (a : DataAggregate) : DataAggregate :=
  if a.values = [] then
    { a with min := some (.finite 0), max := some (.finite 0),
             average := some (.finite 0), median := some (.finite 0) }
  else
    { a with min := some (pymin a.values), max := some (pymax a.values),
             average := some (pyavg a.values), median := some (pymedian a.values) }

/-- The key name `"aggregate/%s:%s:%s" % (project_slug, field, date_iso)`
(line 82). -/
def aggKey (project_slug field date_iso : String) : String :=
  "aggregate/" ++ project_slug ++ ":" ++ field ++ ":" ++ date_iso

/-- The datastore: projects are keyed by `"project/%s" % slug` (the shared
prefix is dropped, keys are the slug part), aggregates by `aggKey`;
data points are append-only entities. -/
structure Store where
  projects : List (String × Project)
  points : List DataPoint
  aggregates : List (String × DataAggregate)
deriving DecidableEq

/-- Lookup `Project.get_by_key_name("project/%s" % name)`. -/
def storeGetProject (s : Store) (name : String) : Option Project :=
  alookup s.projects name

/-- Write `project.put()` under the project's key name. -/
def storePutProject (s : Store) (name : String) (p : Project) : Store :=
  { s with projects := dictInsert s.projects name p }

/-- Lookup `DataAggregate.get_by_key_name(key_name)`. -/
def storeGetAgg (s : Store) (k : String) : Option DataAggregate :=
  alookup s.aggregates k

/-- Write `aggregate.put()` under its key name. -/
def storePutAgg (s : Store) (k : String) (a : DataAggregate) : Store :=
  { s with aggregates := dictInsert s.aggregates k a }

/-- Delete `aggregate.delete()`: remove the entity stored under this key name
(a no-op if none is stored). -/
def storeDelAgg (s : Store) (k : String) : Store :=
  { s with aggregates := s.aggregates.filter (fun e => decide (e.1 ≠ k)) }

/-- Classmethod `Project.create` (lines 27-37): fail (ValueError) if the key name is
taken, otherwise persist a new project with no field names.  `ok = false`
models the raised exception; no write happens before the existence check,
so the store is returned unchanged in that case. -/
structure CreateResult where
  ok : Bool
  store : Store
deriving DecidableEq

def Project.create (s : Store) (slug title api_key : String) : CreateResult :=
  if (storeGetProject s slug).isSome then ⟨false, s⟩
  else ⟨true, storePutProject s slug ⟨slug, title, api_key, []⟩⟩

/-- Classmethod `DataAggregate.get_or_create` (lines 80-90): fetch the entity under
`aggKey`, or construct a fresh one with its `date` set; in both cases
(re)assign `field_name = "%s:%s" % (project_slug, field)`. -/
def DataAggregate.get_or_create (s : Store) (project_slug field date_iso : String) :
    DataAggregate :=
  let agg := match storeGetAgg s (aggKey project_slug field date_iso) with
    | some a => a
    | none => { freshAgg with date := date_iso }
  { agg with field_name := project_slug ++ ":" ++ field }

/-- One accumulator of `AggregationHandler.post` after line 268: the
`get_or_create` result with its stored value list cleared. -/
def clearedAgg (s : Store) (project_slug field date_iso : String) : DataAggregate :=
  { DataAggregate.get_or_create s project_slug field date_iso with values := [] }

/-- The accumulator dict of lines 265-269: one cleared aggregate per field
name, keyed by field (`aggregates[field] = agg`, dict semantics). -/
def buildAccsLoop (s : Store) (slug iso : String)
    (m : List (String × DataAggregate)) : List String → List (String × DataAggregate)
  | [] => m
  | f :: rest => buildAccsLoop s slug iso (dictInsert m f (clearedAgg s slug f iso)) rest

def buildAccs (s : Store) (slug iso : String) (names : List String) :
    List (String × DataAggregate) :=
  buildAccsLoop s slug iso [] names

/-- Start of the aggregated day: `datetime.fromordinal(date.toordinal())`
in microseconds. -/
def dayStartMicros (d : PyDate) : Nat := d.ord * 86400000000

/-- End of the window: `start_dt.replace(hour=23, minute=59, second=59)`,
i.e. 23:59:59.000000 of the same day, in microseconds. -/
def dayEndMicros (d : PyDate) : Nat := dayStartMicros d + 86399000000

/-- Line 271: the project's data points (reference equal to the project's
key) with `timestamp >= start_dt` and `timestamp <= end_dt`. -/
def matchingPoints (s : Store) (project_key : String) (d : PyDate) : List DataPoint :=
  s.points.filter fun pt =>
    decide (pt.project = project_key ∧
      dayStartMicros d ≤ pt.timestamp ∧ pt.timestamp ≤ dayEndMicros d)

/-- Statement `aggregates[field].values.append(v)` (line 275): update the accumulator
stored under `field`; `none` models the `KeyError` raised when the field is
not a key of the dict. -/
def appendVal : List (String × DataAggregate) → String → PyFloat →
    Option (List (String × DataAggregate))
  | [], _, _ => none
  | (k, a) :: rest, f, v =>
    if k = f then some ((k, { a with values := a.values ++ [v] }) :: rest)
    else (appendVal rest f v).map (fun m => (k, a) :: m)

/-- The inner loop of lines 274-275: append every dynamic property of one
point to its field's accumulator. -/
def fillPoint (m : List (String × DataAggregate)) :
    List (String × PyFloat) → Option (List (String × DataAggregate))
  | [] => some m
  | (f, v) :: rest =>
    match appendVal m f v with
    | none => none
    | some m' => fillPoint m' rest

/-- The outer loop of lines 273-275 over all matching points. -/
def fillAll (m : List (String × DataAggregate)) :
    List DataPoint → Option (List (String × DataAggregate))
  | [] => some m
  | pt :: rest =>
    match fillPoint m pt.fields with
    | none => none
    | some m' => fillAll m' rest

/-- Lines 277-281: for each accumulator, delete the stored row if it ended
up with no values, else `put` it (which recomputes the statistics). -/
def writeBack (slug iso : String) (s : Store) :
    List (String × DataAggregate) → Store
  | [] => s
  | (f, a) :: rest =>
    let key := aggKey slug f iso
    let s' := if a.values = [] then storeDelAgg s key
              else storePutAgg s key a.put
    writeBack slug iso s' rest

/-- Handler `AggregationHandler.post` (lines 236-281) for one project and one
(already validated) target date: fetch the project by key name, build one
cleared accumulator per known field name, append the field values of every
point of that day, then delete-or-put each accumulator.  `none` models the
failure responses (unknown project: 400; `KeyError` from a point carrying a
field outside `field_names`: an uncaught 500) — in both cases nothing has
been written back, so the store is unchanged. -/
def recomputeProject (s : Store) (project_name : String) (d : PyDate) : Option Store :=
  match storeGetProject s project_name with
  | none => none
  | some project =>
    let accs := buildAccs s project.slug d.iso project.field_names
    match fillAll accs (matchingPoints s project_name d) with
    | none => none
    | some accs2 => some (writeBack project.slug d.iso s accs2)

/-- The store after a successful `recomputeProject` (the input store if the
run failed); convenient for closed witness statements. -/
def recomputeOut (s : Store) (project_name : String) (d : PyDate) : Store :=
  (recomputeProject s project_name d).getD s

/-- The multiset of values a field receives on a day: for each matching
point, in order, the values of its entries named `f` (one per occurrence —
a point contributes only to the fields present on it). -/
def pointVals (fields : List (String × PyFloat)) (f : String) : List PyFloat :=
  fields.filterMap fun kv => if kv.1 = f then some kv.2 else none

def fieldContribs : List DataPoint → String → List PyFloat
  | [], _ => []
  | pt :: rest, f => pointVals pt.fields f ++ fieldContribs rest f

/-- The value list stored under an aggregate key (empty when no row
exists). -/
def aggValuesAt (s : Store) (k : String) : List PyFloat :=
  match storeGetAgg s k with
  | some a => a.values
  | none => []

/-- A submitted form value: the raw string and the result of Python's
`float(raw)` (`none` when `float` raises).  The two components are used in
disjoint places (`raw` for `project` / `api_key` strings, `parsed` for
measurement values), so they are carried as an unconstrained pair. -/
structure FormValue where
  raw : String
  parsed : Option PyFloat
deriving DecidableEq

/-- The submitted parameters that are measurement fields: everything not
named `project` or `api_key` (line 210). -/
def nonAuthParams (post : List (String × FormValue)) : List (String × FormValue) :=
  post.filter fun kv => decide (¬ (kv.1 = "project" ∨ kv.1 = "api_key"))

/-- The loop of lines 207-216: build `data` as a dict, skipping the
`project` and `api_key` parameters; the first value `float` cannot parse
aborts the whole request (`none`). -/
def buildDataLoop (acc : List (String × PyFloat)) :
    List (String × FormValue) → Option (List (String × PyFloat))
  | [] => some acc
  | (k, v) :: rest =>
    if k = "project" ∨ k = "api_key" then buildDataLoop acc rest
    else
      match v.parsed with
      | none => none
      | some x => buildDataLoop (dictInsert acc k x) rest

def buildData (post : List (String × FormValue)) : Option (List (String × PyFloat)) :=
  buildDataLoop [] post

/-- Result of `ProjectDataHandler.post`: HTTP status (201, 400 or 403), the
store afterwards, and whether `project.put()` ran (line 230). -/
structure PostResult where
  status : Nat
  store : Store
  projectPut : Bool
deriving DecidableEq

/-- Handler `ProjectDataHandler.post` (lines 181-234).  The project name is taken
as already resolved (lines 189-193 resolve it from the URL, the `project`
parameter or the request host).  Steps: fetch the project (else 400),
compare the `api_key` parameter against the stored key (else 403), parse
all measurement values (any failure: 400, nothing stored), reject an empty
field set (400), persist the point with the server clock timestamp, then
extend and persist `field_names` only if the point introduced new names.
The aggregation task enqueued at line 232 is outside this model. -/
def dataPost (s : Store) (project_name remote_addr : String) (now : Nat)
    (post : List (String × FormValue)) : PostResult :=
  match storeGetProject s project_name with
  | none => ⟨400, s, false⟩
  | some project =>
    let api_key := (alookup post "api_key").map (fun v => v.raw)
    if api_key = some project.api_key then
      match buildData post with
      | none => ⟨400, s, false⟩
      | some data =>
        if data = [] then ⟨400, s, false⟩
        else
          let pt : DataPoint := ⟨project_name, now, remote_addr, data⟩
          let s1 : Store := { s with points := s.points ++ [pt] }
          let missing := (data.map (fun kv => kv.1)).filter
            (fun k => decide (k ∉ project.field_names))
          if missing = [] then ⟨201, s1, false⟩
          else ⟨201, storePutProject s1 project_name
            { project with field_names := project.field_names ++ missing }, true⟩
    else ⟨403, s, false⟩

/-- The field-listing branch of `ProjectDataHandler.get` (line 160):
the project's `field_names` verbatim. -/
def list_fields (s : Store) (name : String) : Option (List String) :=
  (storeGetProject s name).map fun p => p.field_names

/-- Python `None`-aware `<` on optional floats: datastore/Python order
`None` before every float. -/
def pltOpt : Option PyFloat → Option PyFloat → Bool
  | none, none => false
  | none, some _ => true
  | some _, none => false
  | some a, some b => pyLt a b

/-- Python `==` on optional floats (NaN is not equal to itself). -/
def peqOpt : Option PyFloat → Option PyFloat → Bool
  | none, none => true
  | some (.finite a), some (.finite b) => decide (a = b)
  | some .inf, some .inf => true
  | some .neginf, some .neginf => true
  | _, _ => false

/-- Python tuple comparison on `(min, median, max)` triples. -/
def tripLt (x y : Option PyFloat × Option PyFloat × Option PyFloat) : Bool :=
  if pltOpt x.1 y.1 then true
  else if peqOpt x.1 y.1 then
    if pltOpt x.2.1 y.2.1 then true
    else if peqOpt x.2.1 y.2.1 then pltOpt x.2.2 y.2.2
    else false
  else false

/-- Python tuple comparison on the `(date, (min, median, max))` rows of the
series response. -/
def rowLt (x y : String × (Option PyFloat × Option PyFloat × Option PyFloat)) : Bool :=
  if strLtb x.1 y.1 then true
  else if x.1 = y.1 then tripLt x.2 y.2
  else false

/-- The comparison driving Python's ascending stable sort of rows. -/
def rowLe (x y : String × (Option PyFloat × Option PyFloat × Option PyFloat)) : Prop :=
  rowLt y x = false

instance : DecidableRel rowLe := fun x y =>
  inferInstanceAs (Decidable (rowLt y x = false))

/-- Python `sorted(data)` (line 176). -/
def pySortRows (l : List (String × (Option PyFloat × Option PyFloat × Option PyFloat))) :
    List (String × (Option PyFloat × Option PyFloat × Option PyFloat)) :=
  l.insertionSort rowLe

/-- The GQL query of lines 170-172: all stored aggregates with this
`field_name` and `date` between the two bounds (string comparison),
in table order. -/
def gqlAggregates (s : Store) (fieldName start_date end_date : String) :
    List DataAggregate :=
  (s.aggregates.map (fun e => e.2)).filter fun a =>
    decide (a.field_name = fieldName) && strGeb a.date start_date && strGeb end_date a.date

/-- Result of the series branch of `ProjectDataHandler.get`: HTTP status
and the JSON rows. -/
structure SeriesResult where
  status : Nat
  data : List (String × (Option PyFloat × Option PyFloat × Option PyFloat))
deriving DecidableEq

/-- The series branch of `ProjectDataHandler.get` (lines 162-176) with both
dates provided by the caller: check both against `DATE_RE` (else 400), then
return `(date, (min, median, max))` for every aggregate row in range,
sorted.  There is no `start_date <= end_date` check in the code. -/
def seriesGet (s : Store) (p : Project) (field_name start_date end_date : String) :
    SeriesResult :=
  if dateShape start_date && dateShape end_date then
    ⟨200, pySortRows ((gqlAggregates s (p.slug ++ ":" ++ field_name) start_date end_date).map
      fun a => (a.date, (a.min, a.median, a.max)))⟩
  else ⟨400, []⟩

/-- Lines 163-164 at the calendar-day level: when the caller omits the
dates, the window is `date.today() - timedelta(7)` through `date.today()`
(day ordinals; `today` has ordinal at least 7, far below any real date). -/
def defaultWindow (todayOrd : Nat) : Nat × Nat := (todayOrd - 7, todayOrd)

/-- The number of calendar days in an inclusive ordinal window. -/
def windowDayCount (w : Nat × Nat) : Nat := w.2 - w.1 + 1

/-- The aggregate row a successful `recomputeProject` leaves under
`aggKey slug f d.iso`: none when the field received no values that day,
otherwise the cleared accumulator refilled with exactly that day's values
and `put` (statistics recomputed). -/
def expectedAgg (s : Store) (name slug : String) (d : PyDate) (f : String) :
    Option DataAggregate :=
  if fieldContribs (matchingPoints s name d) f = [] then none
  else some ({ clearedAgg s slug f d.iso with
               values := fieldContribs (matchingPoints s name d) f }).put

/-- Keys of an association list. -/
def keysOf {α : Type} (m : List (String × α)) : List String := m.map fun e => e.1

/-- The fold Python's `min` performs, on rationals. -/
def qMinFold (x : ℚ) (xs : List ℚ) : ℚ := xs.foldl (fun m y => if y < m then y else m) x

/-- The fold Python's `max` performs, on rationals. -/
def qMaxFold (x : ℚ) (xs : List ℚ) : ℚ := xs.foldl (fun m y => if m < y then y else m) x

/-! ## Concrete inputs used by witnesses and counterexamples -/

/-- A registered project that has reported the field `hits`. -/
def exProject : Project := ⟨"alpha", "Alpha", "secret", ["hits"]⟩

/-- A target date (ordinal 1000 with an arbitrary consistent ISO form). -/
def exDate : PyDate := ⟨1000, "0003-09-27"⟩

/-- One data point of `exProject` inside the day of `exDate`. -/
def exPoint : DataPoint :=
  ⟨"alpha", 1000 * 86400000000 + 1000000, "1.2.3.4", [("hits", .finite 3)]⟩

/-- Store with one project and one point on the target day. -/
def exStoreR : Store := ⟨[("alpha", exProject)], [exPoint], []⟩

/-- A stale aggregate row for a day that no longer has any points. -/
def exStaleAgg : DataAggregate :=
  { freshAgg with field_name := "alpha:hits", date := "0003-09-27",
                  values := [.finite 9] }

/-- Store with the stale aggregate row and no points at all. -/
def exStoreStale : Store :=
  ⟨[("alpha", exProject)], [], [(aggKey "alpha" "hits" "0003-09-27", exStaleAgg)]⟩

/-- An aggregate row for the series-query examples. -/
def exSeriesAgg : DataAggregate :=
  { freshAgg with field_name := "alpha:hits", date := "2024-01-01",
                  values := [.finite 1], min := some (.finite 1),
                  max := some (.finite 1), average := some (.finite 1),
                  median := some (.finite 1) }

/-- Store holding `exSeriesAgg` under its key. -/
def exStoreSeries : Store :=
  ⟨[("alpha", exProject)], [], [(aggKey "alpha" "hits" "2024-01-01", exSeriesAgg)]⟩

/-- A store with a project that has not reported any field yet. -/
def exStoreIngest : Store := ⟨[("alpha", ⟨"alpha", "Alpha", "secret", []⟩)], [], []⟩

/-- An ingestion request whose measurement value is the non-finite float
parsed from the string `inf` (Python `float("inf")` succeeds). -/
def exPostInf : List (String × FormValue) :=
  [("api_key", ⟨"secret", none⟩), ("a", ⟨"inf", some .inf⟩)]

/-- A well-formed ingestion request with two finite measurement values. -/
def exPostGood : List (String × FormValue) :=
  [("project", ⟨"alpha", none⟩), ("api_key", ⟨"secret", none⟩),
   ("hits", ⟨"3", some (.finite 3)⟩), ("misses", ⟨"4", some (.finite 4)⟩)]

/-- An ingestion request carrying only the `project` and `api_key`
parameters: an empty measurement field set. -/
def exPostAuthOnly : List (String × FormValue) :=
  [("project", ⟨"alpha", none⟩), ("api_key", ⟨"secret", none⟩)]

/-- An ingestion request with an unparseable measurement value. -/
def exPostBad : List (String × FormValue) :=
  [("api_key", ⟨"secret", none⟩), ("hits", ⟨"3", some (.finite 3)⟩),
   ("oops", ⟨"zzz", none⟩)]

/-! ## Helper lemmas: association lists -/

@[simp]
theorem alookup_nil {α : Type} (q : String) : alookup ([] : List (String × α)) q = none := rfl

@[simp]
theorem alookup_cons {α : Type} (k : String) (v : α) (rest : List (String × α)) (q : String) :
    alookup ((k, v) :: rest) q = if k = q then some v else alookup rest q := rfl

theorem alookup_dictInsert_self {α : Type} (m : List (String × α)) (k : String) (v : α) :
    alookup (dictInsert m k v) k = some v := by
  induction m with
  | nil => simp [dictInsert]
  | cons e rest ih =>
    obtain ⟨k', v'⟩ := e
    by_cases h : k' = k <;> simp [dictInsert, h, ih]

theorem alookup_dictInsert_ne {α : Type} (m : List (String × α)) (k q : String) (v : α)
    (h : k ≠ q) : alookup (dictInsert m k v) q = alookup m q := by
  induction m with
  | nil => simp [dictInsert, h]
  | cons e rest ih =>
    obtain ⟨k', v'⟩ := e
    by_cases h' : k' = k
    · subst h'
      simp [dictInsert, h]
    · simp only [dictInsert, if_neg h', alookup_cons, ih]

theorem dictInsert_of_alookup_eq {α : Type} (m : List (String × α)) (k : String) (v : α)
    (h : alookup m k = some v) : dictInsert m k v = m := by
  induction m with
  | nil => simp at h
  | cons e rest ih =>
    obtain ⟨k', v'⟩ := e
    by_cases h' : k' = k
    · subst h'
      simp only [alookup_cons, if_pos rfl, if_true, eq_self_iff_true,
        Option.some.injEq] at h
      rw [show v' = v from h] at *
      simp [dictInsert]
    · simp only [alookup_cons, if_neg h'] at h
      simp [dictInsert, h', ih h]

theorem filter_ne_of_alookup_none {α : Type} (m : List (String × α)) (k : String)
    (h : alookup m k = none) : m.filter (fun e => decide (e.1 ≠ k)) = m := by
  induction m with
  | nil => rfl
  | cons e rest ih =>
    obtain ⟨k', v'⟩ := e
    by_cases h' : k' = k
    · subst h'
      simp at h
    · simp only [alookup_cons, if_neg h'] at h
      have hc : (fun e => decide (e.1 ≠ k)) (k', v') = true := by simp [h']
      rw [List.filter_cons, if_pos hc, ih h]

theorem alookup_filter_ne {α : Type} (m : List (String × α)) (k q : String) (h : k ≠ q) :
    alookup (m.filter (fun e => decide (e.1 ≠ k))) q = alookup m q := by
  induction m with
  | nil => rfl
  | cons e rest ih =>
    obtain ⟨k', v'⟩ := e
    rw [List.filter_cons]
    by_cases h' : k' = k
    · have hc : ¬ ((fun e => decide (e.1 ≠ k)) (k', v') = true) := by simp [h']
      have hq : k' ≠ q := by
        rw [h']
        exact h
      rw [if_neg hc, alookup_cons, if_neg hq, ih]
    · have hc : (fun e => decide (e.1 ≠ k)) (k', v') = true := by simp [h']
      rw [if_pos hc]
      simp only [alookup_cons]
      rw [ih]

@[simp]
theorem alookup_filter_ne_self {α : Type} (m : List (String × α)) (k : String) :
    alookup (m.filter (fun e => decide (e.1 ≠ k))) k = none := by
  induction m with
  | nil => rfl
  | cons e rest ih =>
    obtain ⟨k', v'⟩ := e
    rw [List.filter_cons]
    by_cases h' : k' = k
    · have hc : ¬ ((fun e => decide (e.1 ≠ k)) (k', v') = true) := by simp [h']
      rw [if_neg hc]
      exact ih
    · have hc : (fun e => decide (e.1 ≠ k)) (k', v') = true := by simp [h']
      rw [if_pos hc, alookup_cons, if_neg h']
      exact ih

@[simp]
theorem keysOf_nil {α : Type} : keysOf ([] : List (String × α)) = [] := rfl

@[simp]
theorem keysOf_cons {α : Type} (k : String) (v : α) (rest : List (String × α)) :
    keysOf ((k, v) :: rest) = k :: keysOf rest := rfl

theorem keysOf_dictInsert {α : Type} (m : List (String × α)) (k : String) (v : α) :
    keysOf (dictInsert m k v) = if k ∈ keysOf m then keysOf m else keysOf m ++ [k] := by
  induction m with
  | nil => simp [dictInsert]
  | cons e rest ih =>
    obtain ⟨k', v'⟩ := e
    by_cases h : k' = k
    · subst h
      simp [dictInsert]
    · have hne : ¬ k = k' := fun hh => h hh.symm
      simp only [dictInsert, if_neg h, keysOf_cons, ih]
      by_cases hm : k ∈ keysOf rest <;> simp [hm, hne]

theorem nodup_keys_dictInsert {α : Type} (m : List (String × α)) (k : String) (v : α)
    (h : (keysOf m).Nodup) : (keysOf (dictInsert m k v)).Nodup := by
  rw [keysOf_dictInsert]
  by_cases hm : k ∈ keysOf m
  · simpa [hm]
  · rw [if_neg hm]
    exact List.Nodup.append h (by simp) (by simpa using hm)

theorem alookup_of_mem_nodup {α : Type} (m : List (String × α)) (k : String) (v : α)
    (hmem : (k, v) ∈ m) (hnd : (keysOf m).Nodup) : alookup m k = some v := by
  induction m with
  | nil => simp at hmem
  | cons e rest ih =>
    obtain ⟨k', v'⟩ := e
    simp only [keysOf_cons, List.nodup_cons] at hnd
    rcases List.mem_cons.mp hmem with h | h
    · injection h with h1 h2
      subst h1
      subst h2
      simp
    · have hk : k' ≠ k := by
        intro hk
        subst hk
        exact hnd.1 (by simpa [keysOf] using List.mem_map_of_mem (fun e => e.1) h)
      simp [hk, ih h hnd.2]

theorem mem_keysOf_iff_alookup {α : Type} (m : List (String × α)) (k : String) :
    k ∈ keysOf m ↔ (alookup m k).isSome := by
  induction m with
  | nil => simp
  | cons e rest ih =>
    obtain ⟨k', v'⟩ := e
    by_cases h : k' = k
    · subst h
      simp
    · have h2 : ¬ k = k' := fun hh => h hh.symm
      simp [h, h2, ih]

/-! ## Helper lemmas: Python statistics on finite values -/

@[simp]
theorem pyLt_finite (a b : ℚ) :
    pyLt (.finite a) (.finite b) = decide (a < b) := rfl

theorem pymin_map_finite (x : ℚ) (xs : List ℚ) :
    pymin ((x :: xs).map PyFloat.finite) = .finite (qMinFold x xs) := by
  suffices h : ∀ (l : List ℚ) (a : ℚ),
      (l.map PyFloat.finite).foldl (fun m y => if pyLt y m then y else m) (.finite a) =
      .finite (l.foldl (fun m y => if y < m then y else m) a) by
    simpa [pymin, qMinFold] using h xs x
  intro l
  induction l with
  | nil => intro a; rfl
  | cons y ys ih =>
    intro a
    simp only [List.map_cons, List.foldl_cons]
    have hstep : (if pyLt (.finite y) (.finite a) then (PyFloat.finite y) else (.finite a)) =
        .finite (if y < a then y else a) := by
      by_cases h : y < a <;> simp [h]
    rw [hstep]
    exact ih _

theorem pymax_map_finite (x : ℚ) (xs : List ℚ) :
    pymax ((x :: xs).map PyFloat.finite) = .finite (qMaxFold x xs) := by
  suffices h : ∀ (l : List ℚ) (a : ℚ),
      (l.map PyFloat.finite).foldl (fun m y => if pyLt m y then y else m) (.finite a) =
      .finite (l.foldl (fun m y => if m < y then y else m) a) by
    simpa [pymax, qMaxFold] using h xs x
  intro l
  induction l with
  | nil => intro a; rfl
  | cons y ys ih =>
    intro a
    simp only [List.map_cons, List.foldl_cons]
    have hstep : (if pyLt (.finite a) (.finite y) then (PyFloat.finite y) else (.finite a)) =
        .finite (if a < y then y else a) := by
      by_cases h : a < y <;> simp [h]
    rw [hstep]
    exact ih _

theorem qMinFold_spec (xs : List ℚ) : ∀ x : ℚ,
    qMinFold x xs ∈ x :: xs ∧ qMinFold x xs ≤ x ∧ ∀ y ∈ xs, qMinFold x xs ≤ y := by
  induction xs with
  | nil => intro x; simp [qMinFold]
  | cons y ys ih =>
    intro x
    have hfold : qMinFold x (y :: ys) = qMinFold (if y < x then y else x) ys := by
      simp [qMinFold]
    obtain ⟨hmem, hle, hall⟩ := ih (if y < x then y else x)
    have hlex : (if y < x then y else x) ≤ x := by
      by_cases h : y < x <;> simp [h, le_of_lt]
    have hley : (if y < x then y else x) ≤ y := by
      by_cases h : y < x <;> simp [h, le_of_not_lt]
    refine ⟨?_, ?_, ?_⟩
    · rw [hfold]
      rcases List.mem_cons.mp hmem with h1 | h1
      · rw [h1]
        by_cases h : y < x <;> simp [h]
      · simp [h1]
    · rw [hfold]
      exact le_trans hle hlex
    · intro z hz
      rw [hfold]
      rcases List.mem_cons.mp hz with h1 | h1
      · rw [h1]
        exact le_trans hle hley
      · exact hall z h1

theorem qMaxFold_spec (xs : List ℚ) : ∀ x : ℚ,
    qMaxFold x xs ∈ x :: xs ∧ x ≤ qMaxFold x xs ∧ ∀ y ∈ xs, y ≤ qMaxFold x xs := by
  induction xs with
  | nil => intro x; simp [qMaxFold]
  | cons y ys ih =>
    intro x
    have hfold : qMaxFold x (y :: ys) = qMaxFold (if x < y then y else x) ys := by
      simp [qMaxFold]
    obtain ⟨hmem, hle, hall⟩ := ih (if x < y then y else x)
    have hlex : x ≤ (if x < y then y else x) := by
      by_cases h : x < y <;> simp [h, le_of_lt]
    have hley : y ≤ (if x < y then y else x) := by
      by_cases h : x < y <;> simp [h, le_of_not_lt]
    refine ⟨?_, ?_, ?_⟩
    · rw [hfold]
      rcases List.mem_cons.mp hmem with h1 | h1
      · rw [h1]
        by_cases h : x < y <;> simp [h]
      · simp [h1]
    · rw [hfold]
      exact le_trans hlex hle
    · intro z hz
      rw [hfold]
      rcases List.mem_cons.mp hz with h1 | h1
      · rw [h1]
        exact le_trans hley hle
      · exact hall z h1

theorem pySum_map_finite (vs : List ℚ) :
    pySum (vs.map PyFloat.finite) = .finite vs.sum := by
  suffices h : ∀ (l : List ℚ) (a : ℚ),
      (l.map PyFloat.finite).foldl pyAdd (.finite a) = .finite (a + l.sum) by
    simpa [pySum] using h vs 0
  intro l
  induction l with
  | nil => intro a; simp
  | cons y ys ih =>
    intro a
    simp only [List.map_cons, List.foldl_cons, pyAdd, List.sum_cons, ih]
    ring_nf

theorem pyavg_map_finite (vs : List ℚ) :
    pyavg (vs.map PyFloat.finite) = .finite (vs.sum / (vs.length : ℚ)) := by
  simp [pyavg, pySum_map_finite, pyDivNat]

theorem orderedInsert_map_finite (q : ℚ) (ws : List ℚ) :
    List.orderedInsert pyle (.finite q) (ws.map PyFloat.finite) =
    (List.orderedInsert (· ≤ ·) q ws).map PyFloat.finite := by
  induction ws with
  | nil => rfl
  | cons w rest ih =>
    by_cases h : q ≤ w
    · have hp : pyle (.finite q) (.finite w) := by
        simp [pyle, not_lt.mpr h]
      simp [List.orderedInsert, hp, h]
    · have hp : ¬ pyle (.finite q) (.finite w) := by
        simp [pyle, lt_of_not_le h]
      simp [List.orderedInsert, hp, h, ih]

theorem pySortValues_map_finite (vs : List ℚ) :
    pySortValues (vs.map PyFloat.finite) =
    (vs.insertionSort (· ≤ ·)).map PyFloat.finite := by
  induction vs with
  | nil => rfl
  | cons v rest ih =>
    simp only [pySortValues, List.map_cons, List.insertionSort] at *
    rw [ih, orderedInsert_map_finite]

theorem getD_map_finite (l : List ℚ) (n : Nat) (h : n < l.length) :
    (l.map PyFloat.finite).getD n .nan = .finite (l.getD n 0) := by
  induction l generalizing n with
  | nil => simp at h
  | cons x xs ih =>
    cases n with
    | zero => simp [List.getD]
    | succ m =>
      have hm : m < xs.length := by simpa using h
      simpa [List.getD] using ih m hm

theorem pymedian_map_finite (vs : List ℚ) (h : vs ≠ []) :
    pymedian (vs.map PyFloat.finite) =
    .finite ((vs.insertionSort (· ≤ ·)).getD (vs.length / 2) 0) := by
  have hlen : vs.length / 2 < (vs.insertionSort (· ≤ ·)).length := by
    rw [List.length_insertionSort]
    exact Nat.div_lt_self (List.length_pos.mpr h) (by omega)
  simp only [pymedian, pySortValues_map_finite, List.length_map]
  exact getD_map_finite _ _ hlen

/-! ## Helper lemmas: the datastore string order -/

/-- Three-way contradiction for the lexicographic order: `e < s` together
with `¬ d < s` and `¬ e < d` is impossible. -/
theorem lexLt_trio : ∀ e s d : List Char,
    lexLt e s = true → lexLt d s = false → lexLt e d = false → False := by
  intro e
  induction e with
  | nil =>
    intro s d he hds hed
    cases s with
    | nil => simp [lexLt] at he
    | cons y ys =>
      cases d with
      | nil => simp [lexLt] at hds
      | cons z zs => simp [lexLt] at hed
  | cons x xs ih =>
    intro s d he hds hed
    cases s with
    | nil => simp [lexLt] at he
    | cons y ys =>
      cases d with
      | nil => simp [lexLt] at hds
      | cons z zs =>
        simp only [lexLt] at he hds hed
        by_cases h1 : x.toNat < y.toNat
        · by_cases h2 : z.toNat < y.toNat
          · simp [h2] at hds
          · by_cases h3 : x.toNat < z.toNat
            · simp [h3] at hed
            · omega
        · by_cases h1' : x.toNat = y.toNat
          · simp only [if_neg h1, if_pos h1'] at he
            by_cases h2 : z.toNat < y.toNat
            · simp [h2] at hds
            · by_cases h3 : x.toNat < z.toNat
              · simp [h3] at hed
              · have hzy : z.toNat = y.toNat := by omega
                simp only [if_neg h2, if_pos hzy] at hds
                have hxz : x.toNat = z.toNat := by omega
                simp only [if_neg h3, if_pos hxz] at hed
                exact ih ys zs he hds hed
          · simp [h1, h1'] at he

/-- With `end_date < start_date` no aggregate row passes the GQL range
filter. -/
theorem gqlAggregates_empty_of_backwards (s : Store) (fn start_date end_date : String)
    (h : strLtb end_date start_date = true) :
    gqlAggregates s fn start_date end_date = [] := by
  unfold gqlAggregates
  rw [List.filter_eq_nil_iff]
  intro a _
  intro hcond
  rw [Bool.and_eq_true, Bool.and_eq_true] at hcond
  obtain ⟨⟨_, hd1⟩, hd2⟩ := hcond
  rw [strGeb, Bool.not_eq_true'] at hd1 hd2
  exact lexLt_trio end_date.data start_date.data a.date.data h hd1 hd2

/-! ## Claim C3: the stored statistics -/

/-- C3: for a non-empty value list (of finite values), `DataAggregate.put`
stores `min` = the smallest value, `max` = the largest value, `average` =
the sum divided by the count, and `median` = the element at index
`count / 2` (integer division) of the ascending sort — the upper-middle
element for an even count. -/
theorem c3_aggregate_statistics (vs : List ℚ) (hne : vs ≠ []) (a : DataAggregate)
    (hv : a.values = vs.map PyFloat.finite) :
    (∃ m, a.put.min = some (.finite m) ∧ m ∈ vs ∧ ∀ z ∈ vs, m ≤ z) ∧
    (∃ M, a.put.max = some (.finite M) ∧ M ∈ vs ∧ ∀ z ∈ vs, z ≤ M) ∧
    a.put.average = some (.finite (vs.sum / (vs.length : ℚ))) ∧
    (∀ w : List ℚ, w.Sorted (· ≤ ·) → w.Perm vs →
      a.put.median = some (.finite (w.getD (vs.length / 2) 0))) := by
  obtain ⟨x, xs, rfl⟩ : ∃ x xs, vs = x :: xs := by
    cases vs with
    | nil => exact absurd rfl hne
    | cons x xs => exact ⟨x, xs, rfl⟩
  have hvne : a.values ≠ [] := by
    rw [hv]
    simp
  rw [DataAggregate.put, if_neg hvne]
  refine ⟨?_, ?_, ?_, ?_⟩
  · obtain ⟨hmem, hle, hall⟩ := qMinFold_spec xs x
    refine ⟨qMinFold x xs, ?_, hmem, ?_⟩
    · show some (pymin a.values) = some (PyFloat.finite (qMinFold x xs))
      rw [hv, pymin_map_finite]
    · intro z hz
      rcases List.mem_cons.mp hz with h1 | h1
      · rw [h1]
        exact hle
      · exact hall z h1
  · obtain ⟨hmem, hle, hall⟩ := qMaxFold_spec xs x
    refine ⟨qMaxFold x xs, ?_, hmem, ?_⟩
    · show some (pymax a.values) = some (PyFloat.finite (qMaxFold x xs))
      rw [hv, pymax_map_finite]
    · intro z hz
      rcases List.mem_cons.mp hz with h1 | h1
      · rw [h1]
        exact hle
      · exact hall z h1
  · show some (pyavg a.values) = some (PyFloat.finite ((x :: xs).sum / (((x :: xs).length : ℕ) : ℚ)))
    rw [hv, pyavg_map_finite]
  · intro w hsorted hperm
    have hw : w = (x :: xs).insertionSort (· ≤ ·) := by
      refine List.eq_of_perm_of_sorted ?_ hsorted (List.sorted_insertionSort _ _)
      exact hperm.trans (List.perm_insertionSort _ _).symm
    show some (pymedian a.values) = some (PyFloat.finite (w.getD ((x :: xs).length / 2) 0))
    rw [hv, pymedian_map_finite (x :: xs) (by simp), hw]

/-! ## Claim C6: series query validation -/

/-- C6 counterexample: with both dates well-shaped but
`start_date = "2024-01-02"` after `end_date = "2024-01-01"`, the series
query succeeds with an empty result instead of returning a validation
failure; moreover the calendar-invalid string `"2024-13-99"` passes the
date check (it is only a digit-shape regex), so such a query is not
rejected either. -/
theorem c6_counterexample :
    strLtb "2024-01-01" "2024-01-02" = true ∧
    seriesGet exStoreSeries exProject "hits" "2024-01-02" "2024-01-01" =
      ⟨200, []⟩ ∧
    dateShape "2024-13-99" = true ∧
    (seriesGet exStoreSeries exProject "hits" "2024-13-99" "2024-13-99").status = 200 := by
  refine ⟨by decide, by decide, by decide, by decide⟩

/-- C6 (amended): a series query with a date that fails the
`\d{4}-\d{2}-\d{2}` shape check returns a 400 validation failure with no
rows; but a query whose well-shaped `start_date` is later than `end_date`
is not rejected — it succeeds (status 200) with an empty result, and
calendar validity beyond the digit shape is never checked. -/
theorem c6_series_validation (s : Store) (p : Project)
    (field_name start_date end_date : String) :
    (¬ (dateShape start_date && dateShape end_date) = true →
      seriesGet s p field_name start_date end_date = ⟨400, []⟩) ∧
    ((dateShape start_date && dateShape end_date) = true →
      strLtb end_date start_date = true →
      seriesGet s p field_name start_date end_date = ⟨200, []⟩) := by
  constructor
  · intro h
    rw [seriesGet, if_neg h]
  · intro h hlt
    rw [seriesGet, if_pos h, gqlAggregates_empty_of_backwards s _ _ _ hlt]
    rfl

/-- C6 witness: both implications of `c6_series_validation` exercised at
concrete inputs. -/
theorem c6_witness :
    (¬ (dateShape "2024-1-01" && dateShape "2024-01-05") = true) ∧
    seriesGet exStoreSeries exProject "hits" "2024-1-01" "2024-01-05" = ⟨400, []⟩ ∧
    (dateShape "2024-01-02" && dateShape "2024-01-01") = true ∧
    strLtb "2024-01-01" "2024-01-02" = true ∧
    seriesGet exStoreSeries exProject "hits" "2024-01-02" "2024-01-01" = ⟨200, []⟩ := by
  refine ⟨by decide, ?_, by decide, by decide, ?_⟩
  · exact (c6_series_validation exStoreSeries exProject "hits" "2024-1-01" "2024-01-05").1
      (by decide)
  · exact (c6_series_validation exStoreSeries exProject "hits" "2024-01-02" "2024-01-01").2
      (by decide) (by decide)

/-! ## Claim C7: the default series window -/

/-- C7 counterexample: with today at ordinal 1000, the default window is
`(993, 1000)` — `today - 7` through `today` — which contains 8 calendar
days, not 7. -/
theorem c7_counterexample :
    defaultWindow 1000 = (993, 1000) ∧ windowDayCount (defaultWindow 1000) ≠ 7 := by
  refine ⟨by decide, by decide⟩

/-- C7 (amended): when the caller omits both dates, the window is
`[today - 7 days, today]` inclusive — the 8 (not 7) calendar days ending
today. -/
theorem c7_default_window (t : Nat) (h : 7 ≤ t) :
    defaultWindow t = (t - 7, t) ∧ windowDayCount (defaultWindow t) = 8 := by
  constructor
  · rfl
  · simp only [defaultWindow, windowDayCount]
    omega

/-- C7 witness: the amended window at ordinal 1000. -/
theorem c7_witness :
    7 ≤ 1000 ∧ defaultWindow 1000 = (1000 - 7, 1000) ∧
    windowDayCount (defaultWindow 1000) = 8 := by
  refine ⟨by decide, ?_, ?_⟩
  · exact (c7_default_window 1000 (by decide)).1
  · exact (c7_default_window 1000 (by decide)).2

/-! ## Claim C8: duplicate registration -/

/-- C8: registering a slug that is already taken fails (the raised
`ValueError`, surfaced as a conflict), writes nothing, and leaves the
previously registered project — in particular its `api_key` — unchanged. -/
theorem c8_create_conflict (s : Store) (slug title api_key : String) (p : Project)
    (h : storeGetProject s slug = some p) :
    (Project.create s slug title api_key).ok = false ∧
    (Project.create s slug title api_key).store = s ∧
    storeGetProject (Project.create s slug title api_key).store slug = some p ∧
    ((storeGetProject (Project.create s slug title api_key).store slug).map
      (fun q => q.api_key)) = some p.api_key := by
  have hs : (storeGetProject s slug).isSome := by
    rw [h]
    rfl
  rw [Project.create, if_pos hs]
  exact ⟨rfl, rfl, h, by rw [h]; rfl⟩

/-- C8 witness: re-registering `alpha` on a store already holding it. -/
theorem c8_witness :
    storeGetProject exStoreR "alpha" = some exProject ∧
    (Project.create exStoreR "alpha" "Other" "stolen").ok = false ∧
    (Project.create exStoreR "alpha" "Other" "stolen").store = exStoreR ∧
    ((storeGetProject (Project.create exStoreR "alpha" "Other" "stolen").store
      "alpha").map (fun q => q.api_key)) = some exProject.api_key := by
  have h := c8_create_conflict exStoreR "alpha" "Other" "stolen" exProject (by decide)
  exact ⟨by decide, h.1, h.2.1, h.2.2.2⟩

/-- C3 witness: the spec's own example — the median of `[1, 2, 3, 4]` is
the upper-middle element `3`, not `2.5`. -/
theorem c3_witness :
    (([1, 2, 3, 4] : List ℚ) ≠ []) ∧
    ({ freshAgg with values := ([1, 2, 3, 4] : List ℚ).map PyFloat.finite } :
        DataAggregate).values = ([1, 2, 3, 4] : List ℚ).map PyFloat.finite ∧
    List.Sorted (· ≤ ·) ([1, 2, 3, 4] : List ℚ) ∧
    (([1, 2, 3, 4] : List ℚ).Perm [1, 2, 3, 4]) ∧
    ({ freshAgg with values := ([1, 2, 3, 4] : List ℚ).map PyFloat.finite } :
        DataAggregate).put.median = some (.finite 3) := by
  refine ⟨by decide, rfl, by decide, by decide, ?_⟩
  have h := (c3_aggregate_statistics [1, 2, 3, 4] (by decide)
    { freshAgg with values := ([1, 2, 3, 4] : List ℚ).map PyFloat.finite } rfl).2.2.2
    [1, 2, 3, 4] (by decide) (by decide)
  simpa [List.getD] using h

/-! ## Helper lemmas: the ingestion handler -/

theorem mem_keysOf_dictInsert {α : Type} (m : List (String × α)) (k q : String) (v : α) :
    q ∈ keysOf (dictInsert m k v) ↔ q ∈ keysOf m ∨ q = k := by
  rw [keysOf_dictInsert]
  by_cases hm : k ∈ keysOf m
  · rw [if_pos hm]
    constructor
    · exact fun h => Or.inl h
    · rintro (h | h)
      · exact h
      · rw [h]
        exact hm
  · rw [if_neg hm]
    simp

theorem nonAuthParams_cons_auth (k : String) (v : FormValue)
    (post : List (String × FormValue)) (h : k = "project" ∨ k = "api_key") :
    nonAuthParams ((k, v) :: post) = nonAuthParams post := by
  rw [nonAuthParams, List.filter_cons, if_neg (by simp [h]), nonAuthParams]

theorem nonAuthParams_cons_field (k : String) (v : FormValue)
    (post : List (String × FormValue)) (h : ¬ (k = "project" ∨ k = "api_key")) :
    nonAuthParams ((k, v) :: post) = (k, v) :: nonAuthParams post := by
  rw [nonAuthParams, List.filter_cons, if_pos (by simp [h] : _ = true), nonAuthParams]

theorem mem_nonAuthParams_not_auth (post : List (String × FormValue))
    (kv : String × FormValue) (h : kv ∈ nonAuthParams post) :
    ¬ (kv.1 = "project" ∨ kv.1 = "api_key") := by
  have := List.of_mem_filter h
  simpa using this

theorem buildDataLoop_none_iff (post : List (String × FormValue)) :
    ∀ acc, buildDataLoop acc post = none ↔
      ∃ kv ∈ nonAuthParams post, kv.2.parsed = none := by
  induction post with
  | nil =>
    intro acc
    simp [buildDataLoop, nonAuthParams]
  | cons e rest ih =>
    intro acc
    obtain ⟨k, v⟩ := e
    by_cases ha : k = "project" ∨ k = "api_key"
    · rw [buildDataLoop, if_pos ha, nonAuthParams_cons_auth k v rest ha]
      exact ih acc
    · rw [buildDataLoop, if_neg ha, nonAuthParams_cons_field k v rest ha]
      cases hv : v.parsed with
      | none => simp [hv]
      | some x =>
        rw [ih (dictInsert acc k x)]
        constructor
        · rintro ⟨kv, hmem, hbad⟩
          exact ⟨kv, List.mem_cons_of_mem _ hmem, hbad⟩
        · rintro ⟨kv, hmem, hbad⟩
          rcases List.mem_cons.mp hmem with h1 | h1
          · rw [h1] at hbad
            rw [hv] at hbad
            simp at hbad
          · exact ⟨kv, h1, hbad⟩

theorem buildDataLoop_keys (post : List (String × FormValue)) :
    ∀ acc data, buildDataLoop acc post = some data →
      ∀ q, q ∈ keysOf data ↔ q ∈ keysOf acc ∨ q ∈ keysOf (nonAuthParams post) := by
  induction post with
  | nil =>
    intro acc data h q
    rw [buildDataLoop] at h
    injection h with h
    rw [h] at *
    simp [nonAuthParams]
  | cons e rest ih =>
    intro acc data h q
    obtain ⟨k, v⟩ := e
    by_cases ha : k = "project" ∨ k = "api_key"
    · rw [buildDataLoop, if_pos ha] at h
      rw [nonAuthParams_cons_auth k v rest ha]
      exact ih acc data h q
    · rw [buildDataLoop, if_neg ha] at h
      rw [nonAuthParams_cons_field k v rest ha]
      cases hv : v.parsed with
      | none =>
        rw [hv] at h
        simp at h
      | some x =>
        rw [hv] at h
        rw [ih (dictInsert acc k x) data h q, mem_keysOf_dictInsert]
        simp only [keysOf_cons, List.mem_cons]
        tauto

theorem buildData_keys (post : List (String × FormValue)) (data : List (String × PyFloat))
    (h : buildData post = some data) (q : String) :
    q ∈ keysOf data ↔ q ∈ keysOf (nonAuthParams post) := by
  have := buildDataLoop_keys post [] data h q
  simpa using this

theorem buildData_none_iff (post : List (String × FormValue)) :
    buildData post = none ↔ ∃ kv ∈ nonAuthParams post, kv.2.parsed = none :=
  buildDataLoop_none_iff post []

theorem buildData_empty_iff (post : List (String × FormValue))
    (data : List (String × PyFloat)) (h : buildData post = some data) :
    data = [] ↔ nonAuthParams post = [] := by
  constructor
  · intro hd
    rw [hd] at h
    cases hnap : nonAuthParams post with
    | nil => rfl
    | cons kv rest =>
      exfalso
      have := (buildData_keys post [] h kv.1).mpr (by rw [hnap]; simp [keysOf])
      simp [keysOf] at this
  · intro hnap
    cases hd : data with
    | nil => rfl
    | cons e rest =>
      exfalso
      have := (buildData_keys post data h e.1).mp (by rw [hd]; simp [keysOf])
      rw [hnap] at this
      simp [keysOf] at this

theorem buildDataLoop_all_auth (post : List (String × FormValue))
    (h : ∀ kv ∈ post, kv.1 = "project" ∨ kv.1 = "api_key") :
    ∀ acc, buildDataLoop acc post = some acc := by
  induction post with
  | nil => intro acc; rfl
  | cons e rest ih =>
    intro acc
    obtain ⟨k, v⟩ := e
    have ha : k = "project" ∨ k = "api_key" := h (k, v) (by simp)
    rw [buildDataLoop, if_pos ha]
    exact ih (fun kv hkv => h kv (List.mem_cons_of_mem _ hkv)) acc

/-- Characterisation of a successful ingestion: on status 201 the key
matched, `buildData` produced a non-empty field map, exactly one point was
appended with those fields, and the stored project's `field_names` were
extended by exactly the missing submitted names (`projectPut` records
whether that was an actual write). -/
theorem dataPost_spec (s : Store) (name remote : String) (now : Nat)
    (post : List (String × FormValue)) (p : Project)
    (hp : storeGetProject s name = some p)
    (h201 : (dataPost s name remote now post).status = 201) :
    (alookup post "api_key").map (fun v => v.raw) = some p.api_key ∧
    ∃ data, buildData post = some data ∧ data ≠ [] ∧
      (dataPost s name remote now post).store.points =
        s.points ++ [⟨name, now, remote, data⟩] ∧
      storeGetProject (dataPost s name remote now post).store name =
        some { p with field_names := p.field_names ++
          ((data.map fun kv => kv.1).filter fun k => decide (k ∉ p.field_names)) } ∧
      ((dataPost s name remote now post).projectPut = false ↔
        ((data.map fun kv => kv.1).filter fun k => decide (k ∉ p.field_names)) = []) := by
  by_cases hk : (alookup post "api_key").map (fun v => v.raw) = some p.api_key
  · refine ⟨hk, ?_⟩
    cases hbd : buildData post with
    | none =>
      exfalso
      have : (dataPost s name remote now post).status = 400 := by
        simp only [dataPost, hp, hbd]
        rw [if_pos hk]
      rw [this] at h201
      exact absurd h201 (by decide)
    | some data =>
      by_cases hd : data = []
      · exfalso
        have : (dataPost s name remote now post).status = 400 := by
          simp only [dataPost, hp, hbd]
          rw [if_pos hk, if_pos hd]
        rw [this] at h201
        exact absurd h201 (by decide)
      · refine ⟨data, rfl, hd, ?_⟩
        by_cases hm : ((data.map fun kv => kv.1).filter
            fun k => decide (k ∉ p.field_names)) = []
        · have hres : dataPost s name remote now post =
              ⟨201, { s with points := s.points ++ [⟨name, now, remote, data⟩] }, false⟩ := by
            simp only [dataPost, hp, hbd]
            rw [if_pos hk, if_neg hd, if_pos hm]
          rw [hres]
          refine ⟨rfl, ?_, iff_of_true rfl hm⟩
          rw [hm, List.append_nil]
          exact hp
        · have hres : dataPost s name remote now post =
              ⟨201, storePutProject
                { s with points := s.points ++ [⟨name, now, remote, data⟩] } name
                { p with field_names := p.field_names ++
                  ((data.map fun kv => kv.1).filter fun k => decide (k ∉ p.field_names)) },
                true⟩ := by
            simp only [dataPost, hp, hbd]
            rw [if_pos hk, if_neg hd, if_neg hm]
          rw [hres]
          refine ⟨rfl, ?_, iff_of_false (fun hcontra => by simp at hcontra) hm⟩
          exact alookup_dictInsert_self _ _ _
  · exfalso
    have : (dataPost s name remote now post).status = 403 := by
      simp only [dataPost, hp]
      rw [if_neg hk]
    rw [this] at h201
    exact absurd h201 (by decide)

/-! ## Claim C5: ingestion validation -/

/-- C5 counterexample: the string `inf` parses under Python's `float` to a
value that is not a finite number, yet the ingestion request succeeds
(status 201) and the point is stored with the non-finite value — the claim
that non-finite values cause a validation failure and are never stored is
false. -/
theorem c5_counterexample :
    ((⟨"inf", some .inf⟩ : FormValue).parsed = some PyFloat.inf) ∧
    PyFloat.inf.isFinite = false ∧
    (dataPost exStoreIngest "alpha" "1.2.3.4" 5 exPostInf).status = 201 ∧
    (dataPost exStoreIngest "alpha" "1.2.3.4" 5 exPostInf).store.points =
      [⟨"alpha", 5, "1.2.3.4", [("a", PyFloat.inf)]⟩] := by
  refine ⟨rfl, rfl, by decide, by decide⟩

/-- C5 (amended): for an ingestion request that reaches validation (project
found, key matched), the request succeeds iff every submitted measurement
value parses under Python's `float` — finite or not: infinities and NaN
are accepted — and at least one measurement field is present; any parse
failure or an empty field set yields a 400 validation failure with nothing
stored (all-or-nothing, never a partial subset of fields). -/
theorem c5_ingest_validation (s : Store) (name remote : String) (now : Nat)
    (post : List (String × FormValue)) (p : Project)
    (hp : storeGetProject s name = some p)
    (hk : (alookup post "api_key").map (fun v => v.raw) = some p.api_key) :
    ((dataPost s name remote now post).status = 201 ↔
      (∀ kv ∈ nonAuthParams post, kv.2.parsed ≠ none) ∧ nonAuthParams post ≠ []) ∧
    ((dataPost s name remote now post).status ≠ 201 →
      (dataPost s name remote now post).store = s) := by
  cases hbd : buildData post with
  | none =>
    have hres : dataPost s name remote now post = ⟨400, s, false⟩ := by
      simp only [dataPost, hp, hbd]
      rw [if_pos hk]
    obtain ⟨kv, hmem, hbad⟩ := (buildData_none_iff post).mp hbd
    rw [hres]
    constructor
    · constructor
      · intro h
        simp at h
      · rintro ⟨hall, -⟩
        exact absurd hbad (hall kv hmem)
    · intro _
      rfl
  | some data =>
    by_cases hd : data = []
    · have hres : dataPost s name remote now post = ⟨400, s, false⟩ := by
        simp only [dataPost, hp, hbd]
        rw [if_pos hk, if_pos hd]
      have hnap : nonAuthParams post = [] := (buildData_empty_iff post data hbd).mp hd
      rw [hres]
      constructor
      · constructor
        · intro h
          simp at h
        · rintro ⟨-, hne⟩
          exact absurd hnap hne
      · intro _
        rfl
    · have h201 : (dataPost s name remote now post).status = 201 := by
        simp only [dataPost, hp, hbd]
        rw [if_pos hk, if_neg hd]
        by_cases hm : ((data.map fun kv => kv.1).filter
            fun k => decide (k ∉ p.field_names)) = []
        · rw [if_pos hm]
        · rw [if_neg hm]
      constructor
      · rw [h201]
        refine iff_of_true rfl ⟨?_, ?_⟩
        · intro kv hmem hbad
          have : buildData post = none := (buildData_none_iff post).mpr ⟨kv, hmem, hbad⟩
          rw [this] at hbd
          exact absurd hbd (by simp)
        · intro hnap
          exact hd ((buildData_empty_iff post data hbd).mpr hnap)
      · intro h
        exact absurd h201 h

/-- C5 witness: the two conjuncts exercised at concrete requests — a
well-formed two-field request is accepted; a request with an unparseable
value is rejected and leaves the store unchanged. -/
theorem c5_witness :
    storeGetProject exStoreIngest "alpha" = some ⟨"alpha", "Alpha", "secret", []⟩ ∧
    (alookup exPostGood "api_key").map (fun v => v.raw) = some "secret" ∧
    ((dataPost exStoreIngest "alpha" "r" 9 exPostGood).status = 201 ↔
      (∀ kv ∈ nonAuthParams exPostGood, kv.2.parsed ≠ none) ∧
        nonAuthParams exPostGood ≠ []) ∧
    (alookup exPostBad "api_key").map (fun v => v.raw) = some "secret" ∧
    ((dataPost exStoreIngest "alpha" "r" 9 exPostBad).status ≠ 201 →
      (dataPost exStoreIngest "alpha" "r" 9 exPostBad).store = exStoreIngest) := by
  refine ⟨by decide, by decide, ?_, by decide, ?_⟩
  · exact (c5_ingest_validation exStoreIngest "alpha" "r" 9 exPostGood
      ⟨"alpha", "Alpha", "secret", []⟩ (by decide) (by decide)).1
  · exact (c5_ingest_validation exStoreIngest "alpha" "r" 9 exPostBad
      ⟨"alpha", "Alpha", "secret", []⟩ (by decide) (by decide)).2

/-! ## Claim C9: field-name tracking -/

/-- C9: after a successful ingestion, `list_fields` for the project
includes every submitted measurement field name; and if every submitted
name was already known, no write to the project record is performed. -/
theorem c9_fields_after_ingest (s : Store) (name remote : String) (now : Nat)
    (post : List (String × FormValue)) (p : Project)
    (hp : storeGetProject s name = some p)
    (h201 : (dataPost s name remote now post).status = 201) :
    (∃ fl, list_fields (dataPost s name remote now post).store name = some fl ∧
      ∀ k ∈ keysOf (nonAuthParams post), k ∈ fl) ∧
    ((∀ k ∈ keysOf (nonAuthParams post), k ∈ p.field_names) →
      (dataPost s name remote now post).projectPut = false) := by
  obtain ⟨-, data, hbd, -, -, hproj, hput⟩ :=
    dataPost_spec s name remote now post p hp h201
  constructor
  · refine ⟨p.field_names ++
      ((data.map fun kv => kv.1).filter fun k => decide (k ∉ p.field_names)), ?_, ?_⟩
    · rw [list_fields, hproj]
      rfl
    · intro k hk
      have hkdata : k ∈ keysOf data := (buildData_keys post data hbd k).mpr hk
      by_cases hin : k ∈ p.field_names
      · exact List.mem_append_left _ hin
      · refine List.mem_append_right _ ?_
        rw [List.mem_filter]
        exact ⟨by simpa [keysOf] using hkdata, by simpa using hin⟩
  · intro hall
    rw [hput]
    rw [List.filter_eq_nil_iff]
    intro k hk
    have : k ∈ keysOf (nonAuthParams post) :=
      (buildData_keys post data hbd k).mp (by simpa [keysOf] using hk)
    simpa using hall k this

/-- C9 witness: ingesting `hits` and `misses` into a project that knows
neither. -/
theorem c9_witness :
    storeGetProject exStoreIngest "alpha" = some ⟨"alpha", "Alpha", "secret", []⟩ ∧
    (dataPost exStoreIngest "alpha" "r" 9 exPostGood).status = 201 ∧
    (∃ fl, list_fields (dataPost exStoreIngest "alpha" "r" 9 exPostGood).store
        "alpha" = some fl ∧
      ∀ k ∈ keysOf (nonAuthParams exPostGood), k ∈ fl) := by
  refine ⟨by decide, by decide, ?_⟩
  exact (c9_fields_after_ingest exStoreIngest "alpha" "r" 9 exPostGood
    ⟨"alpha", "Alpha", "secret", []⟩ (by decide) (by decide)).1

/-! ## Claim C10: the reserved parameter names -/

/-- C10: parameters named `project` or `api_key` are never stored as
measurement fields of the new point and never enter `field_names`; and a
request whose parameters all carry these two names is rejected with 400 as
an empty field set, leaving the store unchanged. -/
theorem c10_reserved_names (s : Store) (name remote : String) (now : Nat)
    (post : List (String × FormValue)) (p : Project)
    (hp : storeGetProject s name = some p) :
    ((dataPost s name remote now post).status = 201 →
      (∀ pt ∈ (dataPost s name remote now post).store.points,
        pt ∈ s.points ∨ ∀ kv ∈ pt.fields, kv.1 ≠ "project" ∧ kv.1 ≠ "api_key") ∧
      (∀ n, (n = "project" ∨ n = "api_key") → n ∉ p.field_names →
        ∃ fl, list_fields (dataPost s name remote now post).store name = some fl ∧
          n ∉ fl)) ∧
    ((alookup post "api_key").map (fun v => v.raw) = some p.api_key →
      (∀ kv ∈ post, kv.1 = "project" ∨ kv.1 = "api_key") →
      (dataPost s name remote now post).status = 400 ∧
      (dataPost s name remote now post).store = s) := by
  constructor
  · intro h201
    obtain ⟨-, data, hbd, -, hpoints, hproj, -⟩ :=
      dataPost_spec s name remote now post p hp h201
    have hdatakeys : ∀ kv ∈ data, (kv.1 ≠ "project" ∧ kv.1 ≠ "api_key") := by
      intro kv hkv
      have hk : kv.1 ∈ keysOf (nonAuthParams post) :=
        (buildData_keys post data hbd kv.1).mp
          (List.mem_map_of_mem (fun e => e.1) hkv)
      rw [keysOf] at hk
      obtain ⟨e, hmem, he⟩ := List.mem_map.mp hk
      have := mem_nonAuthParams_not_auth post e hmem
      rw [he] at this
      exact ⟨fun hc => this (Or.inl hc), fun hc => this (Or.inr hc)⟩
    constructor
    · intro pt hpt
      rw [hpoints] at hpt
      rcases List.mem_append.mp hpt with h1 | h1
      · exact Or.inl h1
      · right
        have : pt = ⟨name, now, remote, data⟩ := by simpa using h1
        rw [this]
        exact hdatakeys
    · intro n hn hnot
      refine ⟨p.field_names ++
        ((data.map fun kv => kv.1).filter fun k => decide (k ∉ p.field_names)), ?_, ?_⟩
      · rw [list_fields, hproj]
        rfl
      · intro hmem
        rcases List.mem_append.mp hmem with h1 | h1
        · exact hnot h1
        · rw [List.mem_filter] at h1
          obtain ⟨h1, -⟩ := h1
          have hk : n ∈ keysOf (nonAuthParams post) :=
            (buildData_keys post data hbd n).mp h1
          rw [keysOf] at hk
          obtain ⟨e2, hmem3, he2⟩ := List.mem_map.mp hk
          have := mem_nonAuthParams_not_auth post e2 hmem3
          rw [he2] at this
          exact this hn
  · intro hk hall
    have hbd : buildData post = some [] := buildDataLoop_all_auth post hall []
    have hres : dataPost s name remote now post = ⟨400, s, false⟩ := by
      simp only [dataPost, hp, hbd]
      rw [if_pos hk]
      simp
    rw [hres]
    exact ⟨rfl, rfl⟩

/-- C10 witness: the accepting conjunct at a request whose fields are
`hits` and `misses`, and the rejecting conjunct at a request carrying only
`project` and `api_key`. -/
theorem c10_witness :
    ((dataPost exStoreIngest "alpha" "r" 9 exPostGood).status = 201 ∧
      ∀ n, (n = "project" ∨ n = "api_key") → n ∉ (["hits"] : List String) →
        True) ∧
    (∀ pt ∈ (dataPost exStoreIngest "alpha" "r" 9 exPostGood).store.points,
      pt ∈ exStoreIngest.points ∨
        ∀ kv ∈ pt.fields, kv.1 ≠ "project" ∧ kv.1 ≠ "api_key") ∧
    ((dataPost exStoreIngest "alpha" "r" 9 exPostAuthOnly).status = 400 ∧
      (dataPost exStoreIngest "alpha" "r" 9 exPostAuthOnly).store = exStoreIngest) := by
  refine ⟨⟨by decide, fun n _ _ => trivial⟩, ?_, ?_⟩
  · exact ((c10_reserved_names exStoreIngest "alpha" "r" 9 exPostGood
      ⟨"alpha", "Alpha", "secret", []⟩ (by decide)).1 (by decide)).1
  · exact (c10_reserved_names exStoreIngest "alpha" "r" 9 exPostAuthOnly
      ⟨"alpha", "Alpha", "secret", []⟩ (by decide)).2 (by decide) (by decide)

/-! ## Helper lemmas: the aggregation accumulators -/

theorem option_isSome_map {α β : Type} (f : α → β) (o : Option α) :
    (o.map f).isSome = o.isSome := by
  cases o <;> rfl

@[simp]
theorem pointVals_nil (f : String) : pointVals [] f = [] := rfl

theorem pointVals_cons (g : String) (v : PyFloat) (rest : List (String × PyFloat))
    (f : String) :
    pointVals ((g, v) :: rest) f =
      if g = f then v :: pointVals rest f else pointVals rest f := by
  by_cases h : g = f
  · simp [pointVals, List.filterMap_cons, h]
  · simp [pointVals, List.filterMap_cons, h]

@[simp]
theorem fieldContribs_nil (f : String) : fieldContribs [] f = [] := rfl

@[simp]
theorem fieldContribs_cons (pt : DataPoint) (rest : List DataPoint) (f : String) :
    fieldContribs (pt :: rest) f = pointVals pt.fields f ++ fieldContribs rest f := rfl

theorem alookup_buildAccsLoop (s : Store) (slug iso : String) :
    ∀ (names : List String) (m : List (String × DataAggregate)) (f : String),
      alookup (buildAccsLoop s slug iso m names) f =
        if f ∈ names then some (clearedAgg s slug f iso) else alookup m f := by
  intro names
  induction names with
  | nil =>
    intro m f
    simp [buildAccsLoop]
  | cons n rest ih =>
    intro m f
    rw [buildAccsLoop, ih]
    by_cases hf : f ∈ rest
    · rw [if_pos hf, if_pos (List.mem_cons_of_mem _ hf)]
    · rw [if_neg hf]
      by_cases hfn : f = n
      · rw [hfn, alookup_dictInsert_self, if_pos (List.mem_cons_self _ _)]
      · rw [alookup_dictInsert_ne _ _ _ _ (fun hh => hfn hh.symm),
          if_neg (by simp [hfn, hf])]

theorem nodup_keys_buildAccsLoop (s : Store) (slug iso : String) :
    ∀ (names : List String) (m : List (String × DataAggregate)),
      (keysOf m).Nodup → (keysOf (buildAccsLoop s slug iso m names)).Nodup := by
  intro names
  induction names with
  | nil => intro m h; exact h
  | cons n rest ih =>
    intro m h
    rw [buildAccsLoop]
    exact ih _ (nodup_keys_dictInsert _ _ _ h)

theorem alookup_buildAccs (s : Store) (slug iso : String) (names : List String)
    (f : String) :
    alookup (buildAccs s slug iso names) f =
      if f ∈ names then some (clearedAgg s slug f iso) else none := by
  rw [buildAccs, alookup_buildAccsLoop]
  by_cases hf : f ∈ names
  · rw [if_pos hf, if_pos hf]
  · rw [if_neg hf, if_neg hf, alookup_nil]

theorem mem_keys_buildAccs (s : Store) (slug iso : String) (names : List String)
    (f : String) : f ∈ keysOf (buildAccs s slug iso names) ↔ f ∈ names := by
  rw [mem_keysOf_iff_alookup, alookup_buildAccs]
  by_cases hf : f ∈ names <;> simp [hf]

theorem appendVal_isSome (m : List (String × DataAggregate)) (f : String) (v : PyFloat) :
    (appendVal m f v).isSome = (alookup m f).isSome := by
  induction m with
  | nil => rfl
  | cons e rest ih =>
    obtain ⟨k, a⟩ := e
    by_cases h : k = f
    · simp [appendVal, h]
    · simp [appendVal, h, ih]

theorem appendVal_keys (m : List (String × DataAggregate)) (f : String) (v : PyFloat)
    (m' : List (String × DataAggregate)) (h : appendVal m f v = some m') :
    keysOf m' = keysOf m := by
  induction m generalizing m' with
  | nil => simp [appendVal] at h
  | cons e rest ih =>
    obtain ⟨k, a⟩ := e
    by_cases hk : k = f
    · rw [appendVal, if_pos hk] at h
      injection h with h
      rw [h.symm]
      rfl
    · rw [appendVal, if_neg hk] at h
      cases hrec : appendVal rest f v with
      | none =>
        rw [hrec] at h
        simp at h
      | some m2 =>
        rw [hrec] at h
        injection h with h
        rw [h.symm, keysOf_cons, keysOf_cons, ih m2 hrec]

theorem alookup_appendVal_self (m : List (String × DataAggregate)) (f : String)
    (v : PyFloat) (m' : List (String × DataAggregate)) (h : appendVal m f v = some m') :
    alookup m' f =
      (alookup m f).map (fun a => { a with values := a.values ++ [v] }) := by
  induction m generalizing m' with
  | nil => simp [appendVal] at h
  | cons e rest ih =>
    obtain ⟨k, a⟩ := e
    by_cases hk : k = f
    · rw [appendVal, if_pos hk] at h
      injection h with h
      rw [h.symm]
      simp [hk]
    · rw [appendVal, if_neg hk] at h
      cases hrec : appendVal rest f v with
      | none =>
        rw [hrec] at h
        simp at h
      | some m2 =>
        rw [hrec] at h
        injection h with h
        rw [h.symm]
        simp [hk, ih m2 hrec]

theorem alookup_appendVal_ne (m : List (String × DataAggregate)) (f g : String)
    (v : PyFloat) (m' : List (String × DataAggregate)) (h : appendVal m f v = some m')
    (hne : g ≠ f) : alookup m' g = alookup m g := by
  induction m generalizing m' with
  | nil => simp [appendVal] at h
  | cons e rest ih =>
    obtain ⟨k, a⟩ := e
    by_cases hk : k = f
    · rw [appendVal, if_pos hk] at h
      injection h with h
      rw [h.symm]
      have hfg : ¬ f = g := fun hh => hne hh.symm
      simp [hk, hfg]
    · rw [appendVal, if_neg hk] at h
      cases hrec : appendVal rest f v with
      | none =>
        rw [hrec] at h
        simp at h
      | some m2 =>
        rw [hrec] at h
        injection h with h
        rw [h.symm]
        simp [ih m2 hrec]

theorem alookup_appendVal_isSome (m : List (String × DataAggregate)) (f g : String)
    (v : PyFloat) (m' : List (String × DataAggregate)) (h : appendVal m f v = some m') :
    (alookup m' g).isSome = (alookup m g).isSome := by
  by_cases hg : g = f
  · rw [hg, alookup_appendVal_self m f v m' h, option_isSome_map]
  · rw [alookup_appendVal_ne m f g v m' h hg]

theorem fillPoint_keys (fs : List (String × PyFloat)) :
    ∀ (m m' : List (String × DataAggregate)), fillPoint m fs = some m' →
      keysOf m' = keysOf m := by
  induction fs with
  | nil =>
    intro m m' h
    rw [fillPoint] at h
    injection h with h
    rw [h]
  | cons e rest ih =>
    intro m m' h
    obtain ⟨f, v⟩ := e
    rw [fillPoint] at h
    cases happ : appendVal m f v with
    | none =>
      rw [happ] at h
      simp at h
    | some m1 =>
      rw [happ] at h
      rw [ih m1 m' h, appendVal_keys m f v m1 happ]

theorem agg_values_append_nil (a : DataAggregate) :
    { a with values := a.values ++ [] } = a := by
  simp

theorem alookup_fillPoint (fs : List (String × PyFloat)) :
    ∀ (m m' : List (String × DataAggregate)), fillPoint m fs = some m' →
      ∀ f, alookup m' f =
        (alookup m f).map (fun a => { a with values := a.values ++ pointVals fs f }) := by
  induction fs with
  | nil =>
    intro m m' h f
    rw [fillPoint] at h
    injection h with h
    rw [h.symm, pointVals_nil]
    cases hm : alookup m f with
    | none => rfl
    | some a =>
      simp [agg_values_append_nil]
  | cons e rest ih =>
    intro m m' h f
    obtain ⟨g, v⟩ := e
    rw [fillPoint] at h
    cases happ : appendVal m g v with
    | none =>
      rw [happ] at h
      simp at h
    | some m1 =>
      rw [happ] at h
      by_cases hfg : g = f
      · subst hfg
        rw [ih m1 m' h g, pointVals_cons, if_pos rfl,
          alookup_appendVal_self m g v m1 happ, Option.map_map]
        cases hm : alookup m g with
        | none => rfl
        | some a =>
          simp [List.append_assoc]
      · rw [ih m1 m' h f, pointVals_cons, if_neg hfg,
          alookup_appendVal_ne m g f v m1 happ (fun hh => hfg hh.symm)]

theorem fillPoint_isSome (fs : List (String × PyFloat)) :
    ∀ m : List (String × DataAggregate),
      (fillPoint m fs).isSome ↔ ∀ kv ∈ fs, (alookup m kv.1).isSome := by
  induction fs with
  | nil =>
    intro m
    simp [fillPoint]
  | cons e rest ih =>
    intro m
    obtain ⟨g, v⟩ := e
    rw [fillPoint]
    cases happ : appendVal m g v with
    | none =>
      have hg : (alookup m g).isSome = false := by
        rw [(appendVal_isSome m g v).symm, happ]
        rfl
      constructor
      · intro h
        simp at h
      · intro h
        have := h (g, v) (List.mem_cons_self _ _)
        rw [hg] at this
        exact absurd this (by simp)
    | some m1 =>
      rw [ih m1]
      constructor
      · intro h kv hkv
        rcases List.mem_cons.mp hkv with h1 | h1
        · rw [h1]
          rw [(appendVal_isSome m g v).symm, happ]
          rfl
        · rw [(alookup_appendVal_isSome m g kv.1 v m1 happ).symm]
          exact h kv h1
      · intro h kv hkv
        rw [alookup_appendVal_isSome m g kv.1 v m1 happ]
        exact h kv (List.mem_cons_of_mem _ hkv)

theorem fillAll_keys (pts : List DataPoint) :
    ∀ (m m' : List (String × DataAggregate)), fillAll m pts = some m' →
      keysOf m' = keysOf m := by
  induction pts with
  | nil =>
    intro m m' h
    rw [fillAll] at h
    injection h with h
    rw [h]
  | cons pt rest ih =>
    intro m m' h
    rw [fillAll] at h
    cases hfp : fillPoint m pt.fields with
    | none =>
      rw [hfp] at h
      simp at h
    | some m1 =>
      rw [hfp] at h
      rw [ih m1 m' h, fillPoint_keys pt.fields m m1 hfp]

theorem alookup_fillAll (pts : List DataPoint) :
    ∀ (m m' : List (String × DataAggregate)), fillAll m pts = some m' →
      ∀ f, alookup m' f =
        (alookup m f).map
          (fun a => { a with values := a.values ++ fieldContribs pts f }) := by
  induction pts with
  | nil =>
    intro m m' h f
    rw [fillAll] at h
    injection h with h
    rw [h.symm, fieldContribs_nil]
    cases hm : alookup m f with
    | none => rfl
    | some a =>
      simp [agg_values_append_nil]
  | cons pt rest ih =>
    intro m m' h f
    rw [fillAll] at h
    cases hfp : fillPoint m pt.fields with
    | none =>
      rw [hfp] at h
      simp at h
    | some m1 =>
      rw [hfp] at h
      rw [ih m1 m' h f, alookup_fillPoint pt.fields m m1 hfp f, Option.map_map,
        fieldContribs_cons]
      cases hm : alookup m f with
      | none => rfl
      | some a =>
        simp [List.append_assoc]

theorem alookup_fillPoint_isSome (fs : List (String × PyFloat))
    (m m' : List (String × DataAggregate)) (h : fillPoint m fs = some m') (g : String) :
    (alookup m' g).isSome = (alookup m g).isSome := by
  rw [alookup_fillPoint fs m m' h g, option_isSome_map]

theorem fillAll_isSome (pts : List DataPoint) :
    ∀ m : List (String × DataAggregate),
      (fillAll m pts).isSome ↔
        ∀ pt ∈ pts, ∀ kv ∈ pt.fields, (alookup m kv.1).isSome := by
  induction pts with
  | nil =>
    intro m
    simp [fillAll]
  | cons pt rest ih =>
    intro m
    rw [fillAll]
    cases hfp : fillPoint m pt.fields with
    | none =>
      have hneg : ¬ ∀ kv ∈ pt.fields, (alookup m kv.1).isSome := by
        intro hcontra
        have : (fillPoint m pt.fields).isSome :=
          (fillPoint_isSome pt.fields m).mpr hcontra
        rw [hfp] at this
        exact absurd this (by simp)
      constructor
      · intro h
        simp at h
      · intro h
        exact absurd (fun kv hkv => h pt (List.mem_cons_self _ _) kv hkv) hneg
    | some m1 =>
      rw [ih m1]
      constructor
      · intro h pt2 hpt2 kv hkv
        rcases List.mem_cons.mp hpt2 with h1 | h1
        · rw [h1] at hkv
          exact ((fillPoint_isSome pt.fields m).mp (by rw [hfp]; rfl)) kv hkv
        · rw [(alookup_fillPoint_isSome pt.fields m m1 hfp kv.1).symm]
          exact h pt2 h1 kv hkv
      · intro h pt2 hpt2 kv hkv
        rw [alookup_fillPoint_isSome pt.fields m m1 hfp kv.1]
        exact h pt2 (List.mem_cons_of_mem _ hpt2) kv hkv

/-! ## Helper lemmas: the write-back phase -/

theorem strData_append (a b : String) : (a ++ b).data = a.data ++ b.data := by
  cases a
  cases b
  rfl

/-- Key construction `aggKey` is injective in the field component: within one run (slug and
date fixed) distinct fields always get distinct key names, whatever
characters they contain. -/
theorem aggKey_inj_field (slug iso f g : String)
    (h : aggKey slug f iso = aggKey slug g iso) : f = g := by
  apply String.ext
  have hd := congrArg String.data h
  simp only [aggKey, strData_append, List.append_assoc] at hd
  have h1 := List.append_cancel_left hd
  have h2 := List.append_cancel_left h1
  have h3 := List.append_cancel_left h2
  exact List.append_cancel_right h3

@[simp]
theorem storeDelAgg_projects (s : Store) (k : String) :
    (storeDelAgg s k).projects = s.projects := rfl

@[simp]
theorem storeDelAgg_points (s : Store) (k : String) :
    (storeDelAgg s k).points = s.points := rfl

@[simp]
theorem storePutAgg_projects (s : Store) (k : String) (a : DataAggregate) :
    (storePutAgg s k a).projects = s.projects := rfl

@[simp]
theorem storePutAgg_points (s : Store) (k : String) (a : DataAggregate) :
    (storePutAgg s k a).points = s.points := rfl

theorem writeBack_projects (slug iso : String) :
    ∀ (accs : List (String × DataAggregate)) (s : Store),
      (writeBack slug iso s accs).projects = s.projects := by
  intro accs
  induction accs with
  | nil => intro s; rfl
  | cons e rest ih =>
    intro s
    obtain ⟨f, a⟩ := e
    rw [writeBack]
    by_cases h : a.values = []
    · rw [if_pos h, ih]
      rfl
    · rw [if_neg h, ih]
      rfl

theorem writeBack_points (slug iso : String) :
    ∀ (accs : List (String × DataAggregate)) (s : Store),
      (writeBack slug iso s accs).points = s.points := by
  intro accs
  induction accs with
  | nil => intro s; rfl
  | cons e rest ih =>
    intro s
    obtain ⟨f, a⟩ := e
    rw [writeBack]
    by_cases h : a.values = []
    · rw [if_pos h, ih]
      rfl
    · rw [if_neg h, ih]
      rfl

theorem storeGetAgg_writeBack_not_mem (slug iso : String) :
    ∀ (accs : List (String × DataAggregate)) (s : Store) (k : String),
      (∀ e ∈ accs, aggKey slug e.1 iso ≠ k) →
      storeGetAgg (writeBack slug iso s accs) k = storeGetAgg s k := by
  intro accs
  induction accs with
  | nil => intro s k _; rfl
  | cons e rest ih =>
    intro s k hall
    obtain ⟨f, a⟩ := e
    have hf : aggKey slug f iso ≠ k := hall (f, a) (List.mem_cons_self _ _)
    rw [writeBack]
    by_cases h : a.values = []
    · rw [if_pos h, ih _ _ (fun e he => hall e (List.mem_cons_of_mem _ he))]
      rw [storeGetAgg, storeDelAgg]
      exact alookup_filter_ne _ _ _ hf
    · rw [if_neg h, ih _ _ (fun e he => hall e (List.mem_cons_of_mem _ he))]
      rw [storeGetAgg, storePutAgg]
      exact alookup_dictInsert_ne _ _ _ _ hf

theorem storeGetAgg_writeBack_mem (slug iso : String) :
    ∀ (accs : List (String × DataAggregate)) (s : Store) (f : String)
      (a : DataAggregate), (keysOf accs).Nodup → (f, a) ∈ accs →
      storeGetAgg (writeBack slug iso s accs) (aggKey slug f iso) =
        (if a.values = [] then none else some a.put) := by
  intro accs
  induction accs with
  | nil =>
    intro s f a _ hmem
    simp at hmem
  | cons e rest ih =>
    intro s f a hnd hmem
    obtain ⟨g, b⟩ := e
    rw [keysOf_cons, List.nodup_cons] at hnd
    rcases List.mem_cons.mp hmem with h1 | h1
    · injection h1 with hf hb
      subst hf
      subst hb
      have hrest : ∀ e ∈ rest, aggKey slug e.1 iso ≠ aggKey slug f iso := by
        intro e he hcontra
        have heq : e.1 = f := aggKey_inj_field slug iso e.1 f hcontra
        exact hnd.1 (heq ▸ List.mem_map_of_mem (fun x => x.1) he)
      rw [writeBack]
      by_cases hv : a.values = []
      · rw [if_pos hv, if_pos hv,
          storeGetAgg_writeBack_not_mem slug iso rest _ _ hrest]
        rw [storeGetAgg, storeDelAgg]
        exact alookup_filter_ne_self _ _
      · rw [if_neg hv, if_neg hv,
          storeGetAgg_writeBack_not_mem slug iso rest _ _ hrest]
        rw [storeGetAgg, storePutAgg]
        exact alookup_dictInsert_self _ _ _
    · have hgf : g ≠ f := by
        intro hcontra
        rw [hcontra] at hnd
        exact hnd.1 (List.mem_map_of_mem (fun x => x.1) h1)
      rw [writeBack]
      by_cases hv : b.values = []
      · rw [if_pos hv]
        exact ih _ f a hnd.2 h1
      · rw [if_neg hv]
        exact ih _ f a hnd.2 h1

theorem writeBack_fix (slug iso : String) :
    ∀ (accs : List (String × DataAggregate)) (t : Store),
      (∀ e ∈ accs,
        (e.2.values = [] → storeGetAgg t (aggKey slug e.1 iso) = none) ∧
        (e.2.values ≠ [] → storeGetAgg t (aggKey slug e.1 iso) = some e.2.put)) →
      writeBack slug iso t accs = t := by
  intro accs
  induction accs with
  | nil => intro t _; rfl
  | cons e rest ih =>
    intro t hall
    obtain ⟨f, a⟩ := e
    have hf := hall (f, a) (List.mem_cons_self _ _)
    rw [writeBack]
    by_cases hv : a.values = []
    · rw [if_pos hv]
      have hnone : storeGetAgg t (aggKey slug f iso) = none := hf.1 hv
      have hdel : storeDelAgg t (aggKey slug f iso) = t := by
        rw [storeDelAgg, filter_ne_of_alookup_none _ _ hnone]
      rw [hdel]
      exact ih t (fun e he => hall e (List.mem_cons_of_mem _ he))
    · rw [if_neg hv]
      have hsome : storeGetAgg t (aggKey slug f iso) = some a.put := hf.2 hv
      have hput : storePutAgg t (aggKey slug f iso) a.put = t := by
        rw [storePutAgg, dictInsert_of_alookup_eq _ _ _ hsome]
      rw [hput]
      exact ih t (fun e he => hall e (List.mem_cons_of_mem _ he))

theorem alookup_mem {α : Type} (m : List (String × α)) (q : String) (v : α)
    (h : alookup m q = some v) : (q, v) ∈ m := by
  induction m with
  | nil => simp at h
  | cons e rest ih =>
    obtain ⟨k, w⟩ := e
    by_cases hk : k = q
    · rw [alookup_cons, if_pos hk] at h
      injection h with h
      rw [hk, h] at *
      exact List.mem_cons_self _ _
    · rw [alookup_cons, if_neg hk] at h
      exact List.mem_cons_of_mem _ (ih h)

/-! ## Helper lemmas: `DataAggregate.put` -/

theorem put_values (a : DataAggregate) : a.put.values = a.values := by
  rw [DataAggregate.put]
  by_cases h : a.values = []
  · rw [if_pos h]
  · rw [if_neg h]

theorem put_field_name (a : DataAggregate) : a.put.field_name = a.field_name := by
  rw [DataAggregate.put]
  by_cases h : a.values = []
  · rw [if_pos h]
  · rw [if_neg h]

theorem put_date (a : DataAggregate) : a.put.date = a.date := by
  rw [DataAggregate.put]
  by_cases h : a.values = []
  · rw [if_pos h]
  · rw [if_neg h]

theorem put_idem (a : DataAggregate) : a.put.put = a.put := by
  by_cases h : a.values = []
  · have h2 : a.put.values = [] := by rw [put_values, h]
    rw [DataAggregate.put, if_pos h2]
    rw [DataAggregate.put, if_pos h]
  · have h2 : a.put.values ≠ [] := by rw [put_values]; exact h
    conv_lhs => rw [DataAggregate.put]
    rw [if_neg h2, put_values]
    conv_lhs => rw [DataAggregate.put, if_neg h]
    conv_rhs => rw [DataAggregate.put, if_neg h]

/-! ## The behaviour of one aggregation run -/

@[simp]
theorem agg_update_values (a : DataAggregate) (vs : List PyFloat) :
    ({ a with values := vs } : DataAggregate).values = vs := rfl

theorem agg_update_self (b : DataAggregate) :
    ({ b with field_name := b.field_name, values := b.values } : DataAggregate) = b := rfl

theorem agg_update_eq (b : DataAggregate) (fn : String) (vs : List PyFloat)
    (h1 : b.field_name = fn) (h2 : b.values = vs) :
    ({ b with field_name := fn, values := vs } : DataAggregate) = b := by
  subst h1
  subst h2
  rfl

theorem alookup_buildAccs_isSome (s : Store) (slug iso : String) (names : List String)
    (f : String) :
    (alookup (buildAccs s slug iso names) f).isSome ↔ f ∈ names :=
  (mem_keysOf_iff_alookup _ f).symm.trans (mem_keys_buildAccs s slug iso names f)

theorem nodup_keys_buildAccs (s : Store) (slug iso : String) (names : List String) :
    (keysOf (buildAccs s slug iso names)).Nodup :=
  nodup_keys_buildAccsLoop s slug iso names [] (by simp)

/-- A run for a fetched project succeeds exactly when every field carried
by a point of the target day is among the project's known field names
(otherwise line 275 raises `KeyError`). -/
theorem recompute_ok_iff (s : Store) (name : String) (d : PyDate) (p : Project)
    (hp : storeGetProject s name = some p) :
    (recomputeProject s name d).isSome ↔
      ∀ pt ∈ matchingPoints s name d, ∀ kv ∈ pt.fields, kv.1 ∈ p.field_names := by
  simp only [recomputeProject, hp]
  cases hfa : fillAll (buildAccs s p.slug d.iso p.field_names)
      (matchingPoints s name d) with
  | none =>
    constructor
    · intro h
      simp at h
    · intro h
      exfalso
      have hsome : (fillAll (buildAccs s p.slug d.iso p.field_names)
          (matchingPoints s name d)).isSome := by
        apply (fillAll_isSome _ _).mpr
        intro pt hpt kv hkv
        exact (alookup_buildAccs_isSome s p.slug d.iso p.field_names kv.1).mpr
          (h pt hpt kv hkv)
      rw [hfa] at hsome
      exact absurd hsome (by simp)
  | some accs2 =>
    refine iff_of_true rfl ?_
    intro pt hpt kv hkv
    apply (alookup_buildAccs_isSome s p.slug d.iso p.field_names kv.1).mp
    have hsome : (fillAll (buildAccs s p.slug d.iso p.field_names)
        (matchingPoints s name d)).isSome := by
      rw [hfa]
      rfl
    exact ((fillAll_isSome _ _).mp hsome) pt hpt kv hkv

/-- Full characterisation of a successful run: projects and points are
untouched; for every known field name the row under its key becomes
`expectedAgg`; every other key keeps its previous row. -/
theorem recompute_char (s : Store) (name : String) (d : PyDate) (p : Project)
    (s' : Store) (hp : storeGetProject s name = some p)
    (h : recomputeProject s name d = some s') :
    s'.projects = s.projects ∧ s'.points = s.points ∧
    (∀ f ∈ p.field_names,
      storeGetAgg s' (aggKey p.slug f d.iso) = expectedAgg s name p.slug d f) ∧
    (∀ k, (∀ f ∈ p.field_names, k ≠ aggKey p.slug f d.iso) →
      storeGetAgg s' k = storeGetAgg s k) := by
  simp only [recomputeProject, hp] at h
  cases hfa : fillAll (buildAccs s p.slug d.iso p.field_names)
      (matchingPoints s name d) with
  | none =>
    rw [hfa] at h
    simp at h
  | some accs2 =>
    rw [hfa] at h
    have h2 : some (writeBack p.slug d.iso s accs2) = some s' := h
    injection h2 with h2
    subst h2
    have hkeys : keysOf accs2 = keysOf (buildAccs s p.slug d.iso p.field_names) :=
      fillAll_keys _ _ _ hfa
    have hnd : (keysOf accs2).Nodup := by
      rw [hkeys]
      exact nodup_keys_buildAccs s p.slug d.iso p.field_names
    refine ⟨writeBack_projects _ _ _ _, writeBack_points _ _ _ _, ?_, ?_⟩
    · intro f hf
      have hlook : alookup accs2 f = some
          ({ clearedAgg s p.slug f d.iso with
             values := fieldContribs (matchingPoints s name d) f }) := by
        rw [alookup_fillAll _ _ _ hfa f, alookup_buildAccs, if_pos hf]
        rfl
      have hmem2 := alookup_mem _ _ _ hlook
      have hwb := storeGetAgg_writeBack_mem p.slug d.iso accs2 s f _ hnd hmem2
      rw [hwb, expectedAgg]
    · intro k hk
      apply storeGetAgg_writeBack_not_mem
      intro e he hcontra
      have hmemk : e.1 ∈ keysOf accs2 := List.mem_map_of_mem (fun x => x.1) he
      rw [hkeys] at hmemk
      have hfn : e.1 ∈ p.field_names :=
        (mem_keys_buildAccs s p.slug d.iso p.field_names e.1).mp hmemk
      exact hk e.1 hfn hcontra.symm

/-! ## Claim C1: recomputed values are exactly that day's values -/

/-- C1: after a successful `recomputeProject`, for every field in
`project.field_names` the stored value multiset under
`(project.slug, field, target_date)` is exactly the multiset of that
field's values over the project's points whose server timestamp lies in
`[target_date 00:00:00, target_date 23:59:59]` (both ends included); a
point contributes only to the fields present on it. -/
theorem c1_recompute_values (s : Store) (name : String) (d : PyDate) (p : Project)
    (s' : Store) (hp : storeGetProject s name = some p)
    (h : recomputeProject s name d = some s') (f : String) (hf : f ∈ p.field_names) :
    (aggValuesAt s' (aggKey p.slug f d.iso) : Multiset PyFloat) =
      (fieldContribs (matchingPoints s name d) f : Multiset PyFloat) := by
  obtain ⟨-, -, hchar, -⟩ := recompute_char s name d p s' hp h
  have hrow := hchar f hf
  rw [aggValuesAt, hrow, expectedAgg]
  by_cases hvs : fieldContribs (matchingPoints s name d) f = []
  · rw [if_pos hvs, hvs]
  · rw [if_neg hvs]
    show ((({ clearedAgg s p.slug f d.iso with
        values := fieldContribs (matchingPoints s name d) f }).put.values :
          List PyFloat) : Multiset PyFloat) =
      (fieldContribs (matchingPoints s name d) f : Multiset PyFloat)
    rw [put_values, agg_update_values]

/-- C1 witness: one point with `hits = 3` on the target day. -/
theorem c1_witness :
    storeGetProject exStoreR "alpha" = some exProject ∧
    recomputeProject exStoreR "alpha" exDate =
      some (recomputeOut exStoreR "alpha" exDate) ∧
    "hits" ∈ exProject.field_names ∧
    (aggValuesAt (recomputeOut exStoreR "alpha" exDate)
        (aggKey exProject.slug "hits" exDate.iso) : Multiset PyFloat) =
      (fieldContribs (matchingPoints exStoreR "alpha" exDate) "hits" :
        Multiset PyFloat) := by
  refine ⟨by decide, rfl, by decide, ?_⟩
  exact c1_recompute_values exStoreR "alpha" exDate exProject
    (recomputeOut exStoreR "alpha" exDate) (by decide) rfl "hits" (by decide)

/-! ## Claim C4: empty days leave no row -/

/-- C4: if a field known to the project receives no values from the points
of the target day, then after a successful `recomputeProject` no aggregate
row is stored under `(project.slug, field, target_date)` — even if one
existed before the run. -/
theorem c4_empty_day_no_row (s : Store) (name : String) (d : PyDate) (p : Project)
    (s' : Store) (hp : storeGetProject s name = some p)
    (h : recomputeProject s name d = some s') (f : String) (hf : f ∈ p.field_names)
    (hzero : fieldContribs (matchingPoints s name d) f = []) :
    storeGetAgg s' (aggKey p.slug f d.iso) = none := by
  obtain ⟨-, -, hchar, -⟩ := recompute_char s name d p s' hp h
  rw [hchar f hf, expectedAgg, if_pos hzero]

/-- C4 witness: a store holding a stale `hits` row and no points at all;
after the run the row is gone. -/
theorem c4_witness :
    storeGetProject exStoreStale "alpha" = some exProject ∧
    recomputeProject exStoreStale "alpha" exDate =
      some (recomputeOut exStoreStale "alpha" exDate) ∧
    "hits" ∈ exProject.field_names ∧
    fieldContribs (matchingPoints exStoreStale "alpha" exDate) "hits" = [] ∧
    storeGetAgg exStoreStale (aggKey exProject.slug "hits" exDate.iso) =
      some exStaleAgg ∧
    storeGetAgg (recomputeOut exStoreStale "alpha" exDate)
      (aggKey exProject.slug "hits" exDate.iso) = none := by
  refine ⟨by decide, rfl, by decide, rfl, by decide, ?_⟩
  exact c4_empty_day_no_row exStoreStale "alpha" exDate exProject
    (recomputeOut exStoreStale "alpha" exDate) (by decide) rfl "hits" (by decide) rfl

/-! ## Claim C2: recomputation is idempotent -/

/-- C2: running the aggregation twice in a row for the same project and
date, with nothing ingested in between, leaves exactly the same store as
running it once — the second run succeeds and is the identity on the
stored rows and statistics. -/
theorem c2_recompute_idempotent (s : Store) (name : String) (d : PyDate)
    (s' : Store) (h : recomputeProject s name d = some s') :
    recomputeProject s' name d = some s' := by
  cases hp : storeGetProject s name with
  | none =>
    rw [recomputeProject, hp] at h
    simp at h
  | some p =>
    obtain ⟨hproj, hpts, hchar, -⟩ := recompute_char s name d p s' hp h
    have hp' : storeGetProject s' name = some p := by
      rw [storeGetProject, hproj]
      exact hp
    have hmp : matchingPoints s' name d = matchingPoints s name d := by
      rw [matchingPoints, matchingPoints, hpts]
    have hok1 : (recomputeProject s name d).isSome := by
      rw [h]
      rfl
    have hfields : ∀ pt ∈ matchingPoints s name d, ∀ kv ∈ pt.fields,
        kv.1 ∈ p.field_names := (recompute_ok_iff s name d p hp).mp hok1
    simp only [recomputeProject, hp']
    rw [hmp]
    cases hfa2 : fillAll (buildAccs s' p.slug d.iso p.field_names)
        (matchingPoints s name d) with
    | none =>
      exfalso
      have hsome : (fillAll (buildAccs s' p.slug d.iso p.field_names)
          (matchingPoints s name d)).isSome := by
        apply (fillAll_isSome _ _).mpr
        intro pt hpt kv hkv
        exact (alookup_buildAccs_isSome s' p.slug d.iso p.field_names kv.1).mpr
          (hfields pt hpt kv hkv)
      rw [hfa2] at hsome
      exact absurd hsome (by simp)
    | some accs2 =>
      show some (writeBack p.slug d.iso s' accs2) = some s'
      have hnd2 : (keysOf accs2).Nodup := by
        rw [fillAll_keys _ _ _ hfa2]
        exact nodup_keys_buildAccs s' p.slug d.iso p.field_names
      have hfix : writeBack p.slug d.iso s' accs2 = s' := by
        apply writeBack_fix
        rintro ⟨f, a⟩ he
        have hfmem : f ∈ p.field_names := by
          have hmemk : f ∈ keysOf accs2 := List.mem_map_of_mem (fun x => x.1) he
          rw [fillAll_keys _ _ _ hfa2] at hmemk
          exact (mem_keys_buildAccs s' p.slug d.iso p.field_names f).mp hmemk
        have hlookA : alookup accs2 f = some a :=
          alookup_of_mem_nodup _ _ _ he hnd2
        have hlookB : alookup accs2 f = some
            ({ clearedAgg s' p.slug f d.iso with
               values := fieldContribs (matchingPoints s name d) f }) := by
          rw [alookup_fillAll _ _ _ hfa2 f, alookup_buildAccs, if_pos hfmem]
          rfl
        rw [hlookA] at hlookB
        injection hlookB with hlookB
        subst hlookB
        constructor
        · intro hv
          rw [agg_update_values] at hv
          show storeGetAgg s' (aggKey p.slug f d.iso) = none
          rw [hchar f hfmem, expectedAgg, if_pos hv]
        · intro hv
          rw [agg_update_values] at hv
          have hs'row : storeGetAgg s' (aggKey p.slug f d.iso) = some
              ({ clearedAgg s p.slug f d.iso with
                 values := fieldContribs (matchingPoints s name d) f }).put := by
            rw [hchar f hfmem, expectedAgg, if_neg hv]
          have hc : clearedAgg s' p.slug f d.iso =
              { ({ clearedAgg s p.slug f d.iso with
                   values := fieldContribs (matchingPoints s name d) f }).put with
                field_name := p.slug ++ ":" ++ f, values := ([] : List PyFloat) } := by
            simp only [clearedAgg, DataAggregate.get_or_create, hs'row]
          have hfn : ({ clearedAgg s p.slug f d.iso with
              values := fieldContribs (matchingPoints s name d) f }).put.field_name =
              p.slug ++ ":" ++ f := by
            rw [put_field_name]
            rfl
          have hvv : ({ clearedAgg s p.slug f d.iso with
              values := fieldContribs (matchingPoints s name d) f }).put.values =
              fieldContribs (matchingPoints s name d) f := by
            rw [put_values]
          have hrw : ({ clearedAgg s' p.slug f d.iso with
              values := fieldContribs (matchingPoints s name d) f } : DataAggregate) =
              ({ clearedAgg s p.slug f d.iso with
                 values := fieldContribs (matchingPoints s name d) f }).put := by
            rw [hc]
            exact agg_update_eq _ _ _ hfn hvv
          show storeGetAgg s' (aggKey p.slug f d.iso) = some
            ({ clearedAgg s' p.slug f d.iso with
               values := fieldContribs (matchingPoints s name d) f }).put
          rw [hs'row, hrw, put_idem]
      rw [hfix]

/-- C2 witness: running the aggregation a second time on the output of the
run of `c1_witness` returns that output unchanged. -/
theorem c2_witness :
    recomputeProject exStoreR "alpha" exDate =
      some (recomputeOut exStoreR "alpha" exDate) ∧
    recomputeProject (recomputeOut exStoreR "alpha" exDate) "alpha" exDate =
      some (recomputeOut exStoreR "alpha" exDate) := by
  refine ⟨rfl, ?_⟩
  exact c2_recompute_idempotent exStoreR "alpha" exDate
    (recomputeOut exStoreR "alpha" exDate) rfl
